import Mathlib

/-!
Layout resolver of `ViewPattern` (src/include/views/view_pattern.hpp).

A shallow embedding of `findNodes`, `highlightUsingDecls`, `highlightStruct` and
`parsePattern`, followed by theorems about them.

Conventions.
* `u64` values are natural numbers below `2^64`; every `u64` addition and subtraction of the
  source is written with an explicit `% 2^64`.
* `s32` values are integers; the conversion `u64 → s32` is `toS32`, the conversion
  `s32 → u64` is `s32ToU64`.
* The hex editor (`m_hexEditor`) is the list of spans it holds, oldest first.
* The two highlight functions are recursive and the source has no cycle guard, so they take a
  `fuel` argument that bounds the recursion depth; `none` means the depth was exhausted.
-/

namespace hex

/-! ## Data model -/

/-- Modelled from the spec: `lang::Token::TypeToken::Type` is declared in `parser/token.hpp`,
which is not among the sources. Per the spec it is an enumerated value whose numeric encoding
packs a byte width (width = value >> 4), with one sentinel tag `CustomType` that carries no
width and names another type. `primitive e` is a non-custom tag with encoding `e`. -/
inductive TypeTag where
  | CustomType
  | primitive (encoding : Nat)
deriving DecidableEq, Repr

/-- The expression `static_cast<u32>(tag) >> 4` of lines 109, 140 and 174. -/
def typeSize (encoding : Nat) : Nat := (encoding % 2 ^ 32) >>> 4

/-- Node kinds, `lang::ASTNode::Type`. -/
inductive ASTNodeType where
  | VariableDecl
  | Struct
  | TypeDecl
deriving DecidableEq, Repr

/-- Source type `lang::ASTNodeVariableDecl`: `getVariableType`, `getCustomVariableTypeName`, `getOffset`. -/
structure ASTNodeVariableDecl where
  variableName : String
  variableType : TypeTag
  customVariableTypeName : String
  offset : Option Nat
deriving DecidableEq, Repr

/-- Source type `lang::ASTNodeStruct`: `getName`, `getNodes` (each member is used as a variable
declaration, line 171). -/
structure ASTNodeStruct where
  name : String
  nodes : List ASTNodeVariableDecl
deriving DecidableEq, Repr

/-- Source type `lang::ASTNodeTypeDecl`: `getTypeName`, `getAssignedType`, `getAssignedCustomTypeName`. -/
structure ASTNodeTypeDecl where
  typeName : String
  assignedType : TypeTag
  assignedCustomTypeName : String
deriving DecidableEq, Repr

/-- Source type `lang::ASTNode`, the closed set of variants the resolver looks at. -/
inductive ASTNode where
  | VariableDecl (node : ASTNodeVariableDecl)
  | Struct (node : ASTNodeStruct)
  | TypeDecl (node : ASTNodeTypeDecl)
deriving DecidableEq, Repr

/-- Method `ASTNode::getType`. -/
def ASTNode.getType : ASTNode → ASTNodeType
  | .VariableDecl _ => .VariableDecl
  | .Struct _ => .Struct
  | .TypeDecl _ => .TypeDecl

/-- The `static_cast<ASTNodeVariableDecl*>` of `findNodes`. -/
def ASTNode.asVariableDecl : ASTNode → Option ASTNodeVariableDecl
  | .VariableDecl v => some v
  | _ => none

/-- The `static_cast<ASTNodeStruct*>` of `findNodes`. -/
def ASTNode.asStruct : ASTNode → Option ASTNodeStruct
  | .Struct s => some s
  | _ => none

/-- The `static_cast<ASTNodeTypeDecl*>` of `findNodes`. -/
def ASTNode.asTypeDecl : ASTNode → Option ASTNodeTypeDecl
  | .TypeDecl t => some t
  | _ => none

/-! ## Highlight sink -/

/-- One highlighted byte range, `(offset, size)`. -/
abbrev Span := Nat × Nat

/-- The spans held by the hex editor, in the order they were set. -/
abbrev Sink := List Span

/-- Modelled from the spec: `ViewHexEditor::setHighlight` (views/view_hexeditor.hpp, not among
the sources) registers one byte range; spans persist until the next clear. -/
def setHighlight (sink : Sink) (offset size : Nat) : Sink := sink ++ [(offset, size)]

/-- Modelled from the spec: `ViewHexEditor::clearHighlights` (views/view_hexeditor.hpp, not
among the sources) drops all current spans. -/
def clearHighlights (_sink : Sink) : Sink := []

/-! ## Machine integers -/

/-- Conversion of a `u64` to `s32`: keep the low 32 bits, read as two's complement. -/
def toS32 (x : Nat) : Int :=
  if x % 2 ^ 32 < 2 ^ 31 then ((x % 2 ^ 32 : Nat) : Int) else ((x % 2 ^ 32 : Nat) : Int) - 2 ^ 32

/-- Conversion of an `s32` to `u64` (sign extension, i.e. the value modulo `2^64`). -/
def s32ToU64 (i : Int) : Nat := (i % 2 ^ 64).toNat

/-! ## findNodes (lines 127-136) -/

/-- Function `findNodes(type, nodes)`: the loop pushes every node whose type equals `type`. -/
def findNodes (type : ASTNodeType) (nodes : List ASTNode) : List ASTNode :=
  nodes.foldl (fun result node => if node.getType = type then result ++ [node] else result) []

/-- Function `findNodes<ASTNodeVariableDecl>(Type::VariableDecl, ast)`. -/
def findVariableDecls (ast : List ASTNode) : List ASTNodeVariableDecl :=
  (findNodes .VariableDecl ast).filterMap ASTNode.asVariableDecl

/-- Function `findNodes<ASTNodeStruct>(Type::Struct, ast)`. -/
def findStructs (ast : List ASTNode) : List ASTNodeStruct :=
  (findNodes .Struct ast).filterMap ASTNode.asStruct

/-- Function `findNodes<ASTNodeTypeDecl>(Type::TypeDecl, ast)`. -/
def findTypeDecls (ast : List ASTNode) : List ASTNodeTypeDecl :=
  (findNodes .TypeDecl ast).filterMap ASTNode.asTypeDecl

/-! ## highlightUsingDecls and highlightStruct (lines 138-211) -/

/-- Result of a highlight function: the `s32` it returns and the sink afterwards. -/
abbrev Outcome := Option (Int × Sink)

/-- Control state after one of the two lookup loops of `highlightStruct`. -/
inductive Lookup where
  /-- The loop ran `return -1`. -/
  | failed (sink : Sink)
  /-- The loop ended (by `break` or by exhausting the candidates). -/
  | done (offset : Nat) (foundType : Bool) (sink : Sink)
deriving DecidableEq, Repr

/-- Lines 180-190: the first Struct named like the field is resolved at the running offset;
`-1` returns at once, any other result is added to the running offset. -/
def structFieldLookup (recStruct : ASTNodeStruct → Nat → Sink → Outcome) (ast : List ASTNode)
    (typeName : String) (offset : Nat) (sink : Sink) : Option Lookup :=
  match (findStructs ast).find? (fun structNode => structNode.name == typeName) with
  | none => some (.done offset false sink)
  | some structNode =>
    match recStruct structNode offset sink with
    | none => none
    | some (size, sink1) =>
      if size = -1 then some (.failed sink1)
      else some (.done ((offset + s32ToU64 size) % 2 ^ 64) true sink1)

/-- Lines 192-202: the first TypeDecl named like the field is resolved at the running offset;
`-1` returns at once, any other result replaces the running offset. -/
def typeDeclFieldLookup (recUsing : ASTNodeTypeDecl → Nat → Sink → Outcome) (ast : List ASTNode)
    (typeName : String) (offset : Nat) (foundType : Bool) (sink : Sink) : Option Lookup :=
  match (findTypeDecls ast).find? (fun typeDeclNode => typeDeclNode.typeName == typeName) with
  | none => some (.done offset foundType sink)
  | some typeDeclNode =>
    match recUsing typeDeclNode offset sink with
    | none => none
    | some (size, sink1) =>
      if size = -1 then some (.failed sink1)
      else some (.done (s32ToU64 size) true sink1)

/-- The loop over the members of a struct, lines 170-210, with the two recursive calls passed
as `recStruct` and `recUsing`. -/
def highlightStructLoop (recStruct : ASTNodeStruct → Nat → Sink → Outcome)
    (recUsing : ASTNodeTypeDecl → Nat → Sink → Outcome) (ast : List ASTNode)
    (startOffset : Nat) : List ASTNodeVariableDecl → Nat → Sink → Outcome
  | [], offset, sink => some (toS32 ((offset + 2 ^ 64 - startOffset) % 2 ^ 64), sink)
  | var :: rest, offset, sink =>
    match var.variableType with
    | .primitive encoding =>
      highlightStructLoop recStruct recUsing ast startOffset rest
        ((offset + typeSize encoding) % 2 ^ 64) (setHighlight sink offset (typeSize encoding))
    | .CustomType =>
      match structFieldLookup recStruct ast var.customVariableTypeName offset sink with
      | none => none
      | some (.failed sink1) => some (-1, sink1)
      | some (.done offset1 found1 sink1) =>
        match typeDeclFieldLookup recUsing ast var.customVariableTypeName offset1 found1 sink1 with
        | none => none
        | some (.failed sink2) => some (-1, sink2)
        | some (.done offset2 found2 sink2) =>
          if found2 then highlightStructLoop recStruct recUsing ast startOffset rest offset2 sink2
          else some (-1, sink2)

/-- Lines 146-151: the first Struct named like the alias target is resolved at `offset` and its
result is stored in `offset`. -/
def usingStructLookup (recStruct : ASTNodeStruct → Nat → Sink → Outcome) (ast : List ASTNode)
    (typeName : String) (offset : Nat) (sink : Sink) : Option (Nat × Bool × Sink) :=
  match (findStructs ast).find? (fun structNode => structNode.name == typeName) with
  | none => some (offset, false, sink)
  | some structNode =>
    match recStruct structNode offset sink with
    | none => none
    | some (result, sink1) => some (s32ToU64 result, true, sink1)

/-- Lines 153-158: the first TypeDecl named like the alias target is resolved at `offset` and
its result is stored in `offset`. -/
def usingTypeDeclLookup (recUsing : ASTNodeTypeDecl → Nat → Sink → Outcome) (ast : List ASTNode)
    (typeName : String) (offset : Nat) (foundType : Bool) (sink : Sink) :
    Option (Nat × Bool × Sink) :=
  match (findTypeDecls ast).find? (fun typeDeclNode => typeDeclNode.typeName == typeName) with
  | none => some (offset, foundType, sink)
  | some typeDeclNode =>
    match recUsing typeDeclNode offset sink with
    | none => none
    | some (result, sink1) => some (s32ToU64 result, true, sink1)

mutual

/-- Function `highlightUsingDecls(ast, currTypeDeclNode, offset)`, lines 138-165. -/
def highlightUsingDecls : Nat → List ASTNode → ASTNodeTypeDecl → Nat → Sink → Outcome
  | 0, _, _, _, _ => none
  | fuel + 1, ast, currTypeDeclNode, offset, sink =>
    match currTypeDeclNode.assignedType with
    | .primitive encoding =>
      some (toS32 ((offset + typeSize encoding) % 2 ^ 64),
        setHighlight sink offset (typeSize encoding))
    | .CustomType =>
      match usingStructLookup (highlightStruct fuel ast) ast
          currTypeDeclNode.assignedCustomTypeName offset sink with
      | none => none
      | some (offset1, found1, sink1) =>
        match usingTypeDeclLookup (highlightUsingDecls fuel ast) ast
            currTypeDeclNode.assignedCustomTypeName offset1 found1 sink1 with
        | none => none
        | some (offset2, found2, sink2) =>
          if found2 then some (toS32 offset2, sink2) else some (-1, sink2)

/-- Function `highlightStruct(ast, currStructNode, offset)`, lines 167-211. -/
def highlightStruct : Nat → List ASTNode → ASTNodeStruct → Nat → Sink → Outcome
  | 0, _, _, _, _ => none
  | fuel + 1, ast, currStructNode, offset, sink =>
    highlightStructLoop (highlightStruct fuel ast) (highlightUsingDecls fuel ast) ast offset
      currStructNode.nodes offset sink

end

/-! ## parsePattern (lines 85-125) -/

/-- Lines 111-114: every Struct named like the variable's type is resolved (the loop has no
`break`); a `-1` result clears the sink. -/
def topStructLoop (fuel : Nat) (ast : List ASTNode) (typeName : String) (offset : Nat) :
    List ASTNodeStruct → Sink → Option Sink
  | [], sink => some sink
  | structNode :: rest, sink =>
    if typeName = structNode.name then
      match highlightStruct fuel ast structNode offset sink with
      | none => none
      | some (result, sink1) =>
        topStructLoop fuel ast typeName offset rest
          (if result = -1 then clearHighlights sink1 else sink1)
    else topStructLoop fuel ast typeName offset rest sink

/-- Lines 116-119: every TypeDecl named like the variable's type is resolved (the loop has no
`break`); a `-1` result clears the sink. -/
def topUsingLoop (fuel : Nat) (ast : List ASTNode) (typeName : String) (offset : Nat) :
    List ASTNodeTypeDecl → Sink → Option Sink
  | [], sink => some sink
  | usingNode :: rest, sink =>
    if typeName = usingNode.typeName then
      match highlightUsingDecls fuel ast usingNode offset sink with
      | none => none
      | some (result, sink1) =>
        topUsingLoop fuel ast typeName offset rest
          (if result = -1 then clearHighlights sink1 else sink1)
    else topUsingLoop fuel ast typeName offset rest sink

/-- The body of the loop of lines 103-122 for one variable declaration. -/
def resolveVariable (fuel : Nat) (ast : List ASTNode) (varNode : ASTNodeVariableDecl)
    (sink : Sink) : Option Sink :=
  match varNode.offset with
  | none => some sink
  | some value =>
    match varNode.variableType with
    | .primitive encoding => some (setHighlight sink (value % 2 ^ 64) (typeSize encoding))
    | .CustomType =>
      match topStructLoop fuel ast varNode.customVariableTypeName (value % 2 ^ 64)
          (findStructs ast) sink with
      | none => none
      | some sink1 =>
        topUsingLoop fuel ast varNode.customVariableTypeName (value % 2 ^ 64)
          (findTypeDecls ast) sink1

/-- The loop of lines 103-122 over the variable declarations still to visit. -/
def resolveLoop (fuel : Nat) (ast : List ASTNode) : List ASTNodeVariableDecl → Sink → Option Sink
  | [], sink => some sink
  | varNode :: rest, sink =>
    match resolveVariable fuel ast varNode sink with
    | none => none
    | some sink1 => resolveLoop fuel ast rest sink1

/-- Function `parsePattern(buffer)`, lines 85-125. The lexer and the parser are collaborators that are
not among the sources; each is a function returning whether it failed and its output. -/
def parsePattern {Buffer Tokens : Type} (lexer : Buffer → Bool × Tokens)
    (parser : Tokens → Bool × List ASTNode) (fuel : Nat) (buffer : Buffer) (sink : Sink) :
    Option Sink :=
  let sink0 := clearHighlights sink
  if (lexer buffer).1 then some sink0
  else if (parser (lexer buffer).2).1 then some sink0
  else
    resolveLoop fuel (parser (lexer buffer).2).2
      (findVariableDecls (parser (lexer buffer).2).2) sink0

/-- One pass over a forest: `parsePattern` on a text that lexes and parses into `ast`. -/
def pass (fuel : Nat) (ast : List ASTNode) (sink : Sink) : Option Sink :=
  parsePattern (fun (_ : Unit) => (false, ())) (fun (_ : Unit) => (false, ast)) fuel () sink

/-! ## Example forests -/

/-- Tag encoding of `u8` (width 1). -/
def u8 : TypeTag := .primitive 0x10

/-- Tag encoding of `u16` (width 2). -/
def u16 : TypeTag := .primitive 0x20

/-- Scenario A: `struct Header { u8 magic; u16 version; }  Header h @ 0x10`. -/
def scenarioA : List ASTNode :=
  [.Struct ⟨"Header", [⟨"magic", u8, "", none⟩, ⟨"version", u16, "", none⟩]⟩,
   .VariableDecl ⟨"h", .CustomType, "Header", some 0x10⟩]

/-- Scenario B: `using Word = u16;  Word w @ 4`. -/
def scenarioB : List ASTNode :=
  [.TypeDecl ⟨"Word", u16, ""⟩, .VariableDecl ⟨"w", .CustomType, "Word", some 4⟩]

/-- The spans of consecutive fields of sizes `s1, s2, ...` placed at base `B`, in the words of
the spec: `(B, s1), (B + s1, s2), ...`. -/
def layoutSpans : Nat → List Nat → List Span
  | _, [] => []
  | base, size :: sizes => (base, size) :: layoutSpans (base + size) sizes

/-- A span whose offset is reduced to a `u64`. -/
def wrapSpan (span : Span) : Span := (span.1 % 2 ^ 64, span.2)

/-- The byte width of a primitive field (`0` for a custom one, which has no width of its own). -/
def fieldSize (var : ASTNodeVariableDecl) : Nat :=
  match var.variableType with
  | .primitive encoding => typeSize encoding
  | .CustomType => 0

/-- The type name a top-level node defines: the name of a Struct or of a TypeDecl. -/
def definedTypeName : ASTNode → Option String
  | .Struct structNode => some structNode.name
  | .TypeDecl typeDeclNode => some typeDeclNode.typeName
  | .VariableDecl _ => none

/-- The name `typeName` matches no Struct and no TypeDecl of the forest. -/
def Unmatched (ast : List ASTNode) (typeName : String) : Prop :=
  ∀ node ∈ ast, definedTypeName node ≠ some typeName

instance (ast : List ASTNode) (typeName : String) : Decidable (Unmatched ast typeName) :=
  inferInstanceAs (Decidable (∀ node ∈ ast, definedTypeName node ≠ some typeName))

/-- The forest `using Word = u16;  Word w @ 0xFFFFFFFD`. -/
def aliasAtSentinel : List ASTNode :=
  [.TypeDecl ⟨"Word", u16, ""⟩, .VariableDecl ⟨"w", .CustomType, "Word", some 0xFFFFFFFD⟩]

/-- The forest `u8 b @ 4;  Foo f @ 0` with no type named `Foo`. -/
def unknownTopLevelType : List ASTNode :=
  [.VariableDecl ⟨"b", u8, "", some 4⟩, .VariableDecl ⟨"f", .CustomType, "Foo", some 0⟩]

/-- The forest `struct S { Foo x; }  u8 a @ 2;  S s @ 0;  u8 b @ 4` with no type named `Foo`. -/
def unknownFieldType : List ASTNode :=
  [.Struct ⟨"S", [⟨"x", .CustomType, "Foo", none⟩]⟩,
   .VariableDecl ⟨"a", u8, "", some 2⟩,
   .VariableDecl ⟨"s", .CustomType, "S", some 0⟩,
   .VariableDecl ⟨"b", u8, "", some 4⟩]

/-- The struct `struct Inner { u8 a; }` -/
def innerStruct : ASTNodeStruct := ⟨"Inner", [⟨"a", u8, "", none⟩]⟩

/-- The struct `struct ViaAlias { u8 x; Alias y; u8 z; }` -/
def viaAliasStruct : ASTNodeStruct :=
  ⟨"ViaAlias", [⟨"x", u8, "", none⟩, ⟨"y", .CustomType, "Alias", none⟩, ⟨"z", u8, "", none⟩]⟩

/-- The struct `struct Direct { u8 x; Inner y; u8 z; }` -/
def directStruct : ASTNodeStruct :=
  ⟨"Direct", [⟨"x", u8, "", none⟩, ⟨"y", .CustomType, "Inner", none⟩, ⟨"z", u8, "", none⟩]⟩

/-- The structs above with `using Alias = Inner;` and `ViaAlias v @ 0x10`. -/
def aliasOfStruct : List ASTNode :=
  [.Struct innerStruct, .TypeDecl ⟨"Alias", .CustomType, "Inner"⟩, .Struct viaAliasStruct,
   .Struct directStruct, .VariableDecl ⟨"v", .CustomType, "ViaAlias", some 0x10⟩]

/-- The forest `struct N { Foo x; }  using N = u8;  using A = N;` with no type named `Foo`. -/
def failureOverwritten : List ASTNode :=
  [.Struct ⟨"N", [⟨"x", .CustomType, "Foo", none⟩]⟩, .TypeDecl ⟨"N", u8, ""⟩,
   .TypeDecl ⟨"A", .CustomType, "N"⟩]

/-- The forest `struct N { u8 x; }  struct N { u16 y; }  struct W { N f; }  N v @ 0`. -/
def duplicateStructs : List ASTNode :=
  [.Struct ⟨"N", [⟨"x", u8, "", none⟩]⟩, .Struct ⟨"N", [⟨"y", u16, "", none⟩]⟩,
   .Struct ⟨"W", [⟨"f", .CustomType, "N", none⟩]⟩,
   .VariableDecl ⟨"v", .CustomType, "N", some 0⟩]

/-- The alias `t` stands for a primitive of `size` bytes through `depth` aliases of the forest:
either its assigned type is that primitive, or its target name matches no Struct and the first
TypeDecl of that name is the next alias of the chain. -/
inductive AliasChain (ast : List ASTNode) : ASTNodeTypeDecl → Nat → Nat → Prop
  | base (t : ASTNodeTypeDecl) (e : Nat) :
      t.assignedType = .primitive e → AliasChain ast t 1 (typeSize e)
  | step (t next : ASTNodeTypeDecl) (depth size : Nat) :
      t.assignedType = .CustomType →
      (findStructs ast).find? (fun x => x.name == t.assignedCustomTypeName) = none →
      (findTypeDecls ast).find? (fun x => x.typeName == t.assignedCustomTypeName) = some next →
      AliasChain ast next depth size → AliasChain ast t (depth + 1) size

/-- Scenario C: `Foo f @ 0` with no Struct or TypeDecl named `Foo`. -/
def scenarioC : List ASTNode :=
  [.VariableDecl ⟨"f", .CustomType, "Foo", some 0⟩]

/-- The forest without the top-level VariableDecl nodes that have no explicit offset. -/
def removeUnplaced (ast : List ASTNode) : List ASTNode :=
  ast.filter (fun node =>
    match node with
    | .VariableDecl v => v.offset.isSome
    | _ => true)

/-- No two Structs of the forest share a name and no two TypeDecls share a name. -/
def UniqueTypeNames (ast : List ASTNode) : Prop :=
  ((findStructs ast).map (fun x => x.name)).Nodup
    ∧ ((findTypeDecls ast).map (fun x => x.typeName)).Nodup

instance (ast : List ASTNode) : Decidable (UniqueTypeNames ast) :=
  inferInstanceAs (Decidable (_ ∧ _))

/-- The two forests hold, for every name, the same Structs and the same TypeDecls of that name
in the same order. -/
def SameTypes (ast ast' : List ASTNode) : Prop :=
  (∀ N : String, (findStructs ast).filter (fun x => decide (N = x.name))
      = (findStructs ast').filter (fun x => decide (N = x.name)))
    ∧ (∀ N : String, (findTypeDecls ast).filter (fun x => decide (N = x.typeName))
      = (findTypeDecls ast').filter (fun x => decide (N = x.typeName)))

/-- Forest `Word w @ 4;  u8 pad;  using Word = u16;` with the alias after its use and one
declaration without offset. -/
def aliasAfterUse : List ASTNode :=
  [.VariableDecl ⟨"w", .CustomType, "Word", some 4⟩, .VariableDecl ⟨"pad", u8, "", none⟩,
   .TypeDecl ⟨"Word", u16, ""⟩]

/-- The member `f` has resolved size `size` in the forest: it is primitive of that size, or
its custom type name matches no Struct and the first TypeDecl of that name heads a chain of at
most `maxDepth` aliases ending in a primitive of that size. -/
def FieldResolves (ast : List ASTNode) (maxDepth : Nat) (f : ASTNodeVariableDecl)
    (size : Nat) : Prop :=
  (∃ e, f.variableType = .primitive e ∧ size = typeSize e)
    ∨ (f.variableType = .CustomType
      ∧ (findStructs ast).find? (fun x => x.name == f.customVariableTypeName) = none
      ∧ ∃ t depth, (findTypeDecls ast).find? (fun x => x.typeName == f.customVariableTypeName)
            = some t
          ∧ depth ≤ maxDepth ∧ AliasChain ast t depth size)

/-- The struct `struct Packet { Word w; }` -/
def packetStruct : ASTNodeStruct := ⟨"Packet", [⟨"w", .CustomType, "Word", none⟩]⟩

/-- Forest `using Word = u16;  struct Packet { Word w; }  u8 a @ 0;  Packet p @ 0xFFFFFFFD`:
acyclic, every custom type name matches. -/
def structAtSentinel : List ASTNode :=
  [.TypeDecl ⟨"Word", u16, ""⟩, .Struct packetStruct, .VariableDecl ⟨"a", u8, "", some 0⟩,
   .VariableDecl ⟨"p", .CustomType, "Packet", some 0xFFFFFFFD⟩]

/-- The struct `struct Mixed { u8 tag; Word w; Byte b; }` -/
def mixedStruct : ASTNodeStruct :=
  ⟨"Mixed", [⟨"tag", u8, "", none⟩, ⟨"w", .CustomType, "Word", none⟩,
    ⟨"b", .CustomType, "Byte", none⟩]⟩

/-- Forest `using Word = u16;  using Octet = u8;  using Byte = Octet;` with the struct
`Mixed`. -/
def mixedForest : List ASTNode :=
  [.TypeDecl ⟨"Word", u16, ""⟩, .TypeDecl ⟨"Octet", u8, ""⟩,
   .TypeDecl ⟨"Byte", .CustomType, "Octet"⟩, .Struct mixedStruct]

/-- The custom type names a top-level node refers to: the type names of the custom members
of a Struct, the target name of a TypeDecl whose assigned type is custom. -/
def referencedNames : ASTNode → List String
  | .Struct structNode =>
    (structNode.nodes.filter (fun f => decide (f.variableType = .CustomType))).map
      (fun f => f.customVariableTypeName)
  | .TypeDecl typeDeclNode =>
    match typeDeclNode.assignedType with
    | .CustomType => [typeDeclNode.assignedCustomTypeName]
    | .primitive _ => []
  | .VariableDecl _ => []

/-- The reference relation between the Struct and TypeDecl nodes of a forest: a member of `x`
or the alias target of `x` names `y`. -/
def References (ast : List ASTNode) (x y : ASTNode) : Prop :=
  x ∈ ast ∧ y ∈ ast ∧ ∃ N ∈ referencedNames x, definedTypeName y = some N

/-- The reference relation of the forest has no cycle. -/
def Acyclic (ast : List ASTNode) : Prop :=
  ∀ x, ¬ Relation.TransGen (References ast) x x

/-- The number of Struct and TypeDecl nodes of the forest. -/
def typeNodeCount (ast : List ASTNode) : Nat :=
  (findStructs ast).length + (findTypeDecls ast).length

/-- A rank for the type names of the forest `aliasOfStruct`, decreasing along references. -/
def aliasOfStructRank (node : ASTNode) : Nat :=
  if definedTypeName node = some "Inner" then 0
  else if definedTypeName node = some "Alias" then 1
  else 2

/-! ## Lemmas on findNodes -/

@[simp] theorem getType_VariableDecl (v : ASTNodeVariableDecl) :
    (ASTNode.VariableDecl v).getType = .VariableDecl := rfl

@[simp] theorem getType_Struct (s : ASTNodeStruct) : (ASTNode.Struct s).getType = .Struct := rfl

@[simp] theorem getType_TypeDecl (t : ASTNodeTypeDecl) :
    (ASTNode.TypeDecl t).getType = .TypeDecl := rfl

theorem foldl_push_eq_filter (type : ASTNodeType) (nodes acc : List ASTNode) :
    nodes.foldl (fun result node => if node.getType = type then result ++ [node] else result) acc
      = acc ++ nodes.filter (fun node => decide (node.getType = type)) := by
  induction nodes generalizing acc with
  | nil => simp
  | cons node rest ih =>
    simp only [List.foldl_cons, ih, List.filter_cons]
    by_cases h : node.getType = type <;> simp [h]

theorem findNodes_eq_filter (type : ASTNodeType) (nodes : List ASTNode) :
    findNodes type nodes = nodes.filter (fun node => decide (node.getType = type)) := by
  simp [findNodes, foldl_push_eq_filter]

theorem findVariableDecls_eq (ast : List ASTNode) :
    findVariableDecls ast = ast.filterMap ASTNode.asVariableDecl := by
  rw [findVariableDecls, findNodes_eq_filter]
  induction ast with
  | nil => rfl
  | cons node rest ih => cases node <;> simp [List.filter_cons, ASTNode.asVariableDecl, ih]

theorem findStructs_eq (ast : List ASTNode) :
    findStructs ast = ast.filterMap ASTNode.asStruct := by
  rw [findStructs, findNodes_eq_filter]
  induction ast with
  | nil => rfl
  | cons node rest ih => cases node <;> simp [List.filter_cons, ASTNode.asStruct, ih]

theorem findTypeDecls_eq (ast : List ASTNode) :
    findTypeDecls ast = ast.filterMap ASTNode.asTypeDecl := by
  rw [findTypeDecls, findNodes_eq_filter]
  induction ast with
  | nil => rfl
  | cons node rest ih => cases node <;> simp [List.filter_cons, ASTNode.asTypeDecl, ih]

theorem findVariableDecls_map (vars : List ASTNodeVariableDecl) :
    findVariableDecls (vars.map .VariableDecl) = vars := by
  rw [findVariableDecls_eq]
  induction vars with
  | nil => rfl
  | cons x rest ih => simpa [ASTNode.asVariableDecl] using ih

/-! ## Lemmas on the pass -/

theorem pass_eq (fuel : Nat) (ast : List ASTNode) (sink : Sink) :
    pass fuel ast sink = resolveLoop fuel ast (findVariableDecls ast) [] := by
  simp [pass, parsePattern, clearHighlights]

theorem resolveLoop_append (fuel : Nat) (ast : List ASTNode) (xs ys : List ASTNodeVariableDecl)
    (sink : Sink) :
    resolveLoop fuel ast (xs ++ ys) sink
      = (resolveLoop fuel ast xs sink).bind (fun sink1 => resolveLoop fuel ast ys sink1) := by
  induction xs generalizing sink with
  | nil => simp [resolveLoop]
  | cons x rest ih =>
    simp only [List.cons_append, resolveLoop]
    cases resolveVariable fuel ast x sink with
    | none => simp
    | some sink1 => simp [ih]

theorem resolveVariable_primitive (fuel : Nat) (ast : List ASTNode) (v : ASTNodeVariableDecl)
    (sink : Sink) (O t : Nat) (hoff : v.offset = some O) (hO : O < 2 ^ 64)
    (hty : v.variableType = .primitive t) (ht : t < 2 ^ 32) :
    resolveVariable fuel ast v sink = some (sink ++ [(O, t >>> 4)]) := by
  simp only [resolveVariable, hoff, hty, setHighlight, typeSize, Nat.mod_eq_of_lt hO,
    Nat.mod_eq_of_lt ht]

theorem resolveLoop_primitives (fuel : Nat) (ast : List ASTNode)
    (vars : List ASTNodeVariableDecl) (spans : List Span) (sink : Sink)
    (h : List.Forall₂ (fun (var : ASTNodeVariableDecl) (span : Span) =>
      var.offset = some span.1 ∧ span.1 < 2 ^ 64 ∧
        ∃ e, e < 2 ^ 32 ∧ var.variableType = .primitive e ∧ span.2 = e >>> 4) vars spans) :
    resolveLoop fuel ast vars sink = some (sink ++ spans) := by
  induction h generalizing sink with
  | nil => simp [resolveLoop]
  | cons hhead _ ih =>
    obtain ⟨hoff, hO, e, he, hty, hsize⟩ := hhead
    rw [resolveLoop, resolveVariable_primitive fuel ast _ sink _ e hoff hO hty he]
    simp only [ih, ← hsize]
    simp

/-! ## Lemmas on structs of primitive fields -/

theorem highlightStructLoop_primitives
    (recStruct : ASTNodeStruct → Nat → Sink → Outcome)
    (recUsing : ASTNodeTypeDecl → Nat → Sink → Outcome) (ast : List ASTNode) (startOffset : Nat)
    (fields : List ASTNodeVariableDecl)
    (hprim : ∀ f ∈ fields, f.variableType ≠ .CustomType) (acc : Nat) (sink : Sink) :
    highlightStructLoop recStruct recUsing ast startOffset fields (acc % 2 ^ 64) sink
      = some (toS32 (((acc + (fields.map fieldSize).sum) % 2 ^ 64 + 2 ^ 64 - startOffset) % 2 ^ 64),
          sink ++ (layoutSpans acc (fields.map fieldSize)).map wrapSpan) := by
  induction fields generalizing acc sink with
  | nil => simp [highlightStructLoop, layoutSpans]
  | cons f rest ih =>
    have hrest : ∀ g ∈ rest, g.variableType ≠ .CustomType :=
      fun g hg => hprim g (List.mem_cons_of_mem _ hg)
    have hf := hprim f (List.mem_cons_self _ _)
    cases hty : f.variableType with
    | CustomType => exact absurd hty hf
    | primitive e =>
      have hsize : fieldSize f = typeSize e := by simp [fieldSize, hty]
      rw [highlightStructLoop]
      simp only [hty]
      rw [Nat.mod_add_mod, ih hrest]
      simp [layoutSpans, hsize, setHighlight, wrapSpan, Nat.add_assoc]

theorem toS32_of_lt (x : Nat) (h : x < 2 ^ 31) : toS32 x = (x : Int) := by
  have h1 : x % 2 ^ 32 = x := Nat.mod_eq_of_lt (by omega)
  simp only [toS32, h1]
  rw [if_pos h]

theorem toS32_mod (x : Nat) : toS32 (x % 2 ^ 64) = toS32 x := by
  have h : x % 2 ^ 64 % 2 ^ 32 = x % 2 ^ 32 := by omega
  simp only [toS32, h]

theorem highlightStruct_primitives (fuel : Nat) (ast : List ASTNode) (s : ASTNodeStruct)
    (B : Nat) (sink : Sink) (hprim : ∀ f ∈ s.nodes, f.variableType ≠ .CustomType)
    (hB : B < 2 ^ 64) :
    highlightStruct (fuel + 1) ast s B sink
      = some (toS32 ((s.nodes.map fieldSize).sum % 2 ^ 64),
          sink ++ (layoutSpans B (s.nodes.map fieldSize)).map wrapSpan) := by
  have h := highlightStructLoop_primitives (highlightStruct fuel ast)
    (highlightUsingDecls fuel ast) ast B s.nodes hprim B sink
  rw [Nat.mod_eq_of_lt hB] at h
  rw [highlightStruct, h]
  congr 3
  omega

/-- The top-level Struct loop only acts on the structs named like the variable's type. -/
theorem topStructLoop_filter (fuel : Nat) (ast : List ASTNode) (typeName : String) (offset : Nat)
    (structs : List ASTNodeStruct) (sink : Sink) :
    topStructLoop fuel ast typeName offset structs sink
      = topStructLoop fuel ast typeName offset
          (structs.filter (fun structNode => decide (typeName = structNode.name))) sink := by
  induction structs generalizing sink with
  | nil => rfl
  | cons structNode rest ih =>
    by_cases h : typeName = structNode.name
    · rw [List.filter_cons_of_pos (by simpa using h), topStructLoop, topStructLoop]
      simp only [h, if_true]
      cases highlightStruct fuel ast structNode offset sink with
      | none => rfl
      | some r => simp only; rw [← h]; exact ih _
    · rw [List.filter_cons_of_neg (by simpa using h), topStructLoop, if_neg h]
      exact ih sink

/-- The top-level TypeDecl loop only acts on the aliases named like the variable's type. -/
theorem topUsingLoop_filter (fuel : Nat) (ast : List ASTNode) (typeName : String) (offset : Nat)
    (usings : List ASTNodeTypeDecl) (sink : Sink) :
    topUsingLoop fuel ast typeName offset usings sink
      = topUsingLoop fuel ast typeName offset
          (usings.filter (fun usingNode => decide (typeName = usingNode.typeName))) sink := by
  induction usings generalizing sink with
  | nil => rfl
  | cons usingNode rest ih =>
    by_cases h : typeName = usingNode.typeName
    · rw [List.filter_cons_of_pos (by simpa using h), topUsingLoop, topUsingLoop]
      simp only [h, if_true]
      cases highlightUsingDecls fuel ast usingNode offset sink with
      | none => rfl
      | some r => simp only; rw [← h]; exact ih _
    · rw [List.filter_cons_of_neg (by simpa using h), topUsingLoop, if_neg h]
      exact ih sink

/-! ## Lemmas on name lookup and failure -/

theorem find_struct_none_of_unmatched (ast : List ASTNode) (typeName : String)
    (h : Unmatched ast typeName) :
    (findStructs ast).find? (fun structNode => structNode.name == typeName) = none := by
  rw [List.find?_eq_none]
  intro x hx
  rw [findStructs_eq, List.mem_filterMap] at hx
  obtain ⟨node, hnode, hcast⟩ := hx
  cases node with
  | Struct y =>
    have hxy : y = x := by simpa [ASTNode.asStruct] using hcast
    have := h _ hnode
    simpa [definedTypeName, hxy] using this
  | VariableDecl y => simp [ASTNode.asStruct] at hcast
  | TypeDecl y => simp [ASTNode.asStruct] at hcast

theorem find_typeDecl_none_of_unmatched (ast : List ASTNode) (typeName : String)
    (h : Unmatched ast typeName) :
    (findTypeDecls ast).find? (fun typeDeclNode => typeDeclNode.typeName == typeName)
      = none := by
  rw [List.find?_eq_none]
  intro x hx
  rw [findTypeDecls_eq, List.mem_filterMap] at hx
  obtain ⟨node, hnode, hcast⟩ := hx
  cases node with
  | TypeDecl y =>
    have hxy : y = x := by simpa [ASTNode.asTypeDecl] using hcast
    have := h _ hnode
    simpa [definedTypeName, hxy] using this
  | VariableDecl y => simp [ASTNode.asTypeDecl] at hcast
  | Struct y => simp [ASTNode.asTypeDecl] at hcast

theorem toS32_s32ToU64_neg_one : toS32 (s32ToU64 (-1)) = -1 := by decide

/-- A member whose custom type name matches nothing makes the member loop return `-1`. -/
theorem highlightStructLoop_unmatched (recStruct : ASTNodeStruct → Nat → Sink → Outcome)
    (recUsing : ASTNodeTypeDecl → Nat → Sink → Outcome) (ast : List ASTNode) (startOffset : Nat)
    (f : ASTNodeVariableDecl) (post : List ASTNodeVariableDecl) (offset : Nat) (sink : Sink)
    (hty : f.variableType = .CustomType) (hun : Unmatched ast f.customVariableTypeName) :
    highlightStructLoop recStruct recUsing ast startOffset (f :: post) offset sink
      = some (-1, sink) := by
  rw [highlightStructLoop]
  simp [hty, structFieldLookup, typeDeclFieldLookup, find_struct_none_of_unmatched ast _ hun,
    find_typeDecl_none_of_unmatched ast _ hun]

/-- If the member loop returns on the members `pre`, it returns `-1` on `pre` followed by a
member whose custom type name matches nothing, with the sink it had then. -/
theorem highlightStructLoop_unmatched_after (recStruct : ASTNodeStruct → Nat → Sink → Outcome)
    (recUsing : ASTNodeTypeDecl → Nat → Sink → Outcome) (ast : List ASTNode) (startOffset : Nat)
    (f : ASTNodeVariableDecl) (post : List ASTNodeVariableDecl)
    (hty : f.variableType = .CustomType) (hun : Unmatched ast f.customVariableTypeName)
    (pre : List ASTNodeVariableDecl) (offset : Nat) (sink : Sink) (r : Int) (sink1 : Sink)
    (h : highlightStructLoop recStruct recUsing ast startOffset pre offset sink
      = some (r, sink1)) :
    highlightStructLoop recStruct recUsing ast startOffset (pre ++ f :: post) offset sink
      = some (-1, sink1) := by
  induction pre generalizing offset sink with
  | nil =>
    simp only [highlightStructLoop, Option.some.injEq, Prod.mk.injEq] at h
    rw [List.nil_append, highlightStructLoop_unmatched _ _ _ _ _ _ _ _ hty hun, h.2]
  | cons g rest ih =>
    rw [List.cons_append, highlightStructLoop]
    rw [highlightStructLoop] at h
    cases hg : g.variableType with
    | primitive e =>
      simp only [hg] at h ⊢
      exact ih _ _ h
    | CustomType =>
      simp only [hg] at h ⊢
      cases hs : structFieldLookup recStruct ast g.customVariableTypeName offset sink with
      | none => simp [hs] at h
      | some l =>
        cases l with
        | failed s1 => simp only [hs, Option.some.injEq, Prod.mk.injEq] at h ⊢; exact ⟨trivial, h.2⟩
        | done o1 f1 s1 =>
          simp only [hs] at h ⊢
          cases ht : typeDeclFieldLookup recUsing ast g.customVariableTypeName o1 f1 s1 with
          | none => simp [ht] at h
          | some l2 =>
            cases l2 with
            | failed s2 => simp only [ht, Option.some.injEq, Prod.mk.injEq] at h ⊢; exact ⟨trivial, h.2⟩
            | done o2 f2 s2 =>
              simp only [ht] at h ⊢
              cases f2 with
              | true => simp only [if_true] at h ⊢; exact ih _ _ h
              | false =>
                simp only [Bool.false_eq_true, if_false, Option.some.injEq, Prod.mk.injEq] at h ⊢
                exact ⟨trivial, h.2⟩

/-! ## Lemmas on alias chains -/

theorem toS32_s32ToU64_toS32 (x : Nat) : toS32 (s32ToU64 (toS32 x)) = toS32 x := by
  unfold toS32 s32ToU64
  split
  · rename_i h
    have h1 : ((((x % 2 ^ 32 : Nat) : Int) % 2 ^ 64).toNat) = x % 2 ^ 32 := by omega
    rw [h1, Nat.mod_mod, if_pos h]
  · rename_i h
    have h1 : (((((x % 2 ^ 32 : Nat) : Int) - 2 ^ 32) % 2 ^ 64).toNat)
        = x % 2 ^ 32 + (2 ^ 64 - 2 ^ 32) := by omega
    have h2 : (x % 2 ^ 32 + (2 ^ 64 - 2 ^ 32)) % 2 ^ 32 = x % 2 ^ 32 := by omega
    rw [h1, h2, if_neg h]

/-- An alias chain ending in a primitive of `size` bytes emits the single span
`(offset, size)` and returns the end position, whatever the depth, given fuel for the depth. -/
theorem highlightUsingDecls_aliasChain (ast : List ASTNode) (t : ASTNodeTypeDecl)
    (depth size : Nat) (h : AliasChain ast t depth size) (fuel offset : Nat) (sink : Sink)
    (hfuel : depth ≤ fuel) :
    highlightUsingDecls fuel ast t offset sink
      = some (toS32 ((offset + size) % 2 ^ 64), sink ++ [(offset, size)]) := by
  induction h generalizing fuel with
  | base t e hty =>
    obtain ⟨n, rfl⟩ : ∃ n, fuel = n + 1 := ⟨fuel - 1, by omega⟩
    rw [highlightUsingDecls]
    simp only [hty, setHighlight]
  | step t next depth size hty hstruct hfind _ ih =>
    obtain ⟨n, rfl⟩ : ∃ n, fuel = n + 1 := ⟨fuel - 1, by omega⟩
    rw [highlightUsingDecls]
    simp only [hty, usingStructLookup, hstruct, usingTypeDeclLookup, hfind,
      ih n (by omega), if_true, toS32_s32ToU64_toS32]

/-- A top-level variable whose type is an alias chain ending in a primitive: the sink gets
the single span `(O, size)`, unless the end position reads as `-1`, which clears the sink. -/
theorem resolveVariable_aliasChain (ast : List ASTNode) (t : ASTNodeTypeDecl)
    (depth size : Nat) (h : AliasChain ast t depth size) (fuel : Nat) (hfuel : depth ≤ fuel)
    (v : ASTNodeVariableDecl) (O : Nat) (sink : Sink) (hoff : v.offset = some O)
    (hO : O < 2 ^ 64) (hty : v.variableType = .CustomType)
    (hstructs : (findStructs ast).filter
      (fun x => decide (v.customVariableTypeName = x.name)) = [])
    (husings : (findTypeDecls ast).filter
      (fun x => decide (v.customVariableTypeName = x.typeName)) = [t]) :
    resolveVariable fuel ast v sink
      = some (if toS32 ((O + size) % 2 ^ 64) = -1 then [] else sink ++ [(O, size)]) := by
  have htname : v.customVariableTypeName = t.typeName := by
    have hmem : t ∈ (findTypeDecls ast).filter
        (fun x => decide (v.customVariableTypeName = x.typeName)) := by simp [husings]
    simpa using (List.mem_filter.mp hmem).2
  simp only [resolveVariable, hoff, hty, Nat.mod_eq_of_lt hO]
  rw [topStructLoop_filter, hstructs, topStructLoop]
  simp only
  rw [topUsingLoop_filter, husings, topUsingLoop, if_pos htname,
    highlightUsingDecls_aliasChain ast t depth size h fuel O sink hfuel]
  simp only [topUsingLoop, clearHighlights]

/-! ## Theorems -/

/-- C1: a top-level VariableDecl with explicit offset `O` and primitive tag `t` makes the
resolve loop append exactly the span `(O, t >> 4)` to the sink, whatever the forest around it:
the pass runs the declarations before it, appends that one span, and goes on with the
declarations after it. A forest made of only such declarations leaves the sink holding exactly
the list of `(O_i, t_i >> 4)` in forest order. -/
theorem primitive_variable_emits_one_span (fuel : Nat) (pre post : List ASTNode)
    (v : ASTNodeVariableDecl) (O t : Nat) (hoff : v.offset = some O) (hO : O < 2 ^ 64)
    (hty : v.variableType = .primitive t) (ht : t < 2 ^ 32) :
    (∀ sink, resolveVariable fuel (pre ++ .VariableDecl v :: post) v sink
        = some (sink ++ [(O, t >>> 4)]))
    ∧ (∀ sink0, pass fuel (pre ++ .VariableDecl v :: post) sink0
        = (resolveLoop fuel (pre ++ .VariableDecl v :: post) (findVariableDecls pre) []).bind
            (fun sink1 => resolveLoop fuel (pre ++ .VariableDecl v :: post)
              (findVariableDecls post) (sink1 ++ [(O, t >>> 4)])))
    ∧ (∀ (vars : List ASTNodeVariableDecl) (spans : List Span) (sink0 : Sink),
        List.Forall₂ (fun (var : ASTNodeVariableDecl) (span : Span) =>
          var.offset = some span.1 ∧ span.1 < 2 ^ 64 ∧
            ∃ e, e < 2 ^ 32 ∧ var.variableType = .primitive e ∧ span.2 = e >>> 4) vars spans →
        pass fuel (vars.map .VariableDecl) sink0 = some spans) := by
  refine ⟨fun sink => resolveVariable_primitive fuel _ v sink O t hoff hO hty ht, ?_, ?_⟩
  · intro sink0
    have hsplit : findVariableDecls (pre ++ .VariableDecl v :: post)
        = findVariableDecls pre ++ ([v] ++ findVariableDecls post) := by
      simp [findVariableDecls_eq, ASTNode.asVariableDecl]
    rw [pass_eq, hsplit, resolveLoop_append]
    congr 1
    funext sink1
    rw [resolveLoop_append]
    simp [resolveLoop, resolveVariable_primitive fuel _ v sink1 O t hoff hO hty ht]
  · intro vars spans sink0 h
    rw [pass_eq, findVariableDecls_map, resolveLoop_primitives fuel _ vars spans [] h]
    simp

/-- Witness for C1 : the forest `u8 a @ 0; u16 b @ 8`. -/
theorem primitive_variable_emits_one_span_witness :
    pass 0 [.VariableDecl ⟨"a", u8, "", some 0⟩, .VariableDecl ⟨"b", u16, "", some 8⟩] [(3, 3)]
      = some [(0, 0x10 >>> 4), (8, 0x20 >>> 4)] :=
  (primitive_variable_emits_one_span 0 [] [] ⟨"a", u8, "", some 0⟩ 0 0x10 rfl (by decide) rfl
    (by decide)).2.2 [⟨"a", u8, "", some 0⟩, ⟨"b", u16, "", some 8⟩] [(0, 1), (8, 2)] [(3, 3)]
    (by
      refine List.Forall₂.cons ⟨rfl, by decide, 0x10, by decide, rfl, rfl⟩
        (List.Forall₂.cons ⟨rfl, by decide, 0x20, by decide, rfl, rfl⟩ List.Forall₂.nil))

/-- C2: for a Struct whose fields are all primitive, with sizes `s1..sN` (size = tag >> 4),
and every base offset `B`, `highlightStruct` emits exactly the spans
`(B, s1), (B + s1, s2), ...` in field order (offsets being `u64` values) and returns
`s1 + ... + sN` as a value of its `s32` result type, which is the sum itself whenever the sum
is below `2^31`; a variable of that struct type placed at `B` then makes the pass emit exactly
those spans. -/
theorem struct_of_primitives_layout (fuel : Nat) (ast : List ASTNode) (s : ASTNodeStruct)
    (B : Nat) (hprim : ∀ f ∈ s.nodes, f.variableType ≠ .CustomType) (hB : B < 2 ^ 64) :
    (∀ sink, highlightStruct (fuel + 1) ast s B sink
        = some (toS32 (s.nodes.map fieldSize).sum,
            sink ++ (layoutSpans B (s.nodes.map fieldSize)).map wrapSpan))
    ∧ ((s.nodes.map fieldSize).sum < 2 ^ 31 →
        ∀ sink, highlightStruct (fuel + 1) ast s B sink
          = some (((s.nodes.map fieldSize).sum : Int),
              sink ++ (layoutSpans B (s.nodes.map fieldSize)).map wrapSpan))
    ∧ ((s.nodes.map fieldSize).sum < 2 ^ 31 →
        ∀ (v : ASTNodeVariableDecl) (sink : Sink), v.offset = some B →
        v.variableType = .CustomType →
        (findStructs ast).filter (fun x => decide (v.customVariableTypeName = x.name)) = [s] →
        (findTypeDecls ast).filter (fun x => decide (v.customVariableTypeName = x.typeName)) = [] →
        resolveVariable (fuel + 1) ast v sink
          = some (sink ++ (layoutSpans B (s.nodes.map fieldSize)).map wrapSpan)) := by
  have hraw : ∀ sink, highlightStruct (fuel + 1) ast s B sink
      = some (toS32 (s.nodes.map fieldSize).sum,
          sink ++ (layoutSpans B (s.nodes.map fieldSize)).map wrapSpan) := by
    intro sink
    rw [highlightStruct_primitives fuel ast s B sink hprim hB, toS32_mod]
  have hcall : (s.nodes.map fieldSize).sum < 2 ^ 31 →
      ∀ sink, highlightStruct (fuel + 1) ast s B sink
        = some (((s.nodes.map fieldSize).sum : Int),
            sink ++ (layoutSpans B (s.nodes.map fieldSize)).map wrapSpan) := by
    intro hfit sink
    rw [hraw, toS32_of_lt _ hfit]
  refine ⟨hraw, hcall, ?_⟩
  intro hfit v sink hoff hty hstructs husings
  have hname : v.customVariableTypeName = s.name := by
    have hmem : s ∈ (findStructs ast).filter
        (fun x => decide (v.customVariableTypeName = x.name)) := by simp [hstructs]
    simpa using (List.mem_filter.mp hmem).2
  have hne : (((s.nodes.map fieldSize).sum : Int) = -1) = False := by
    simp only [eq_iff_iff, iff_false]; omega
  simp only [resolveVariable, hoff, hty, Nat.mod_eq_of_lt hB]
  rw [topStructLoop_filter, hstructs, topStructLoop, if_pos hname, hcall hfit]
  simp only [hne, if_false, topStructLoop]
  rw [topUsingLoop_filter, husings, topUsingLoop]

/-- Witness for C2 (Scenario A): `struct Header { u8 magic; u16 version; }` with
`Header h @ 0x10` gives the spans `[(0x10, 1), (0x11, 2)]`. -/
theorem struct_of_primitives_layout_witness :
    highlightStruct 1 scenarioA ⟨"Header", [⟨"magic", u8, "", none⟩, ⟨"version", u16, "", none⟩]⟩
        0x10 [] = some (3, [(0x10, 1), (0x11, 2)])
    ∧ resolveVariable 1 scenarioA ⟨"h", .CustomType, "Header", some 0x10⟩ []
        = some [(0x10, 1), (0x11, 2)]
    ∧ pass 1 scenarioA [] = some [(0x10, 1), (0x11, 2)] :=
  have h := struct_of_primitives_layout 0 scenarioA
    ⟨"Header", [⟨"magic", u8, "", none⟩, ⟨"version", u16, "", none⟩]⟩ 0x10
    (by decide) (by decide)
  ⟨h.2.1 (by decide) [],
    h.2.2 (by decide) ⟨"h", .CustomType, "Header", some 0x10⟩ [] rfl rfl (by decide) (by decide),
    by decide⟩

/-- C10: `findNodes(kind, forest)` is the forest filtered by node type: every returned node has
that type, every top-level node of that type is returned as often as it occurs, and the result
is a subsequence of the forest (relative order is preserved). -/
theorem findNodes_is_filter (kind : ASTNodeType) (forest : List ASTNode) :
    findNodes kind forest = forest.filter (fun node => decide (node.getType = kind))
    ∧ (∀ node ∈ findNodes kind forest, node.getType = kind)
    ∧ (∀ node, node.getType = kind → (findNodes kind forest).count node = forest.count node)
    ∧ (findNodes kind forest).Sublist forest := by
  rw [findNodes_eq_filter]
  refine ⟨rfl, ?_, ?_, List.filter_sublist _⟩
  · intro node hnode
    simpa using (List.mem_filter.mp hnode).2
  · intro node hnode
    rw [List.count_filter]
    simpa using hnode

/-- C3 (failing input): `using Word = u16; Word w @ 0xFFFFFFFD`. `highlightUsingDecls` emits
the span `(0xFFFFFFFD, 2)` and returns the end position `0xFFFFFFFF`, which as an `s32` is
`-1`; `parsePattern` reads that as the failure value and clears, so the sink ends empty
instead of holding the single span. -/
theorem alias_chain_cleared_at_sentinel_offset :
    highlightUsingDecls 1 aliasAtSentinel ⟨"Word", u16, ""⟩ 0xFFFFFFFD []
        = some (-1, [(0xFFFFFFFD, 2)])
    ∧ pass 1 aliasAtSentinel [] = some [] := by
  decide

/-- C4 (failing inputs): with `u8 b @ 4; Foo f @ 0` (no `Foo`) the pass ends with the span
`(4, 1)` in the sink, because no branch of `parsePattern` handles a top-level name that matches
nothing; with `struct S { Foo x; } u8 a @ 2; S s @ 0; u8 b @ 4` the failure of `s` clears the
span of `a`, but the loop goes on and the pass ends with the span `(4, 1)` of `b`. -/
theorem failure_is_not_atomic :
    pass 1 unknownTopLevelType [] = some [(4, 1)]
    ∧ pass 1 unknownFieldType [] = some [(4, 1)] := by
  decide

/-- C5 (failing input): in `struct ViaAlias { u8 x; Alias y; u8 z; }` with
`using Alias = Inner;` and `struct Inner { u8 a; }`, placed at `0x10`, the field `z` after the
alias-typed field is emitted at offset `1` (the size of `Inner`) instead of `0x12`, and the
struct returns `-14` instead of `3`; the same struct with `Inner y` written directly gives
`(0x12, 1)` and `3`. -/
theorem alias_of_struct_field_loses_offset :
    highlightStruct 3 aliasOfStruct viaAliasStruct 0x10 []
        = some (-14, [(0x10, 1), (0x11, 1), (1, 1)])
    ∧ highlightStruct 3 aliasOfStruct directStruct 0x10 []
        = some (3, [(0x10, 1), (0x11, 1), (0x12, 1)])
    ∧ highlightUsingDecls 2 aliasOfStruct ⟨"Alias", .CustomType, "Inner"⟩ 0x11 [] = some (1, [(0x11, 1)])
    ∧ pass 3 aliasOfStruct [] = some [(0x10, 1), (0x11, 1), (1, 1)] := by
  decide

/-- C8 (failing input): with two structs named `N` (`{ u8 x; }` then `{ u16 y; }`) and
`N v @ 0`, the top-level loop of `parsePattern` resolves both and the sink ends with
`[(0, 1), (0, 2)]` instead of `[(0, 1)]`; a struct field of type `N` uses the first only. -/
theorem top_level_lookup_takes_every_match :
    pass 1 duplicateStructs [] = some [(0, 1), (0, 2)]
    ∧ highlightStruct 2 duplicateStructs ⟨"W", [⟨"f", .CustomType, "N", none⟩]⟩ 0 []
        = some (1, [(0, 1)]) := by
  decide

/-- C7 (failing input): with `struct N { Foo x; }  using N = u8;  using A = N;` (no `Foo`),
the recursive call `highlightStruct` on `N` returns `-1`, yet its caller `highlightUsingDecls`
on `A` stores that result untested (line 148), goes on to the TypeDecl named `N`, emits a span
at `0xFFFFFFFFFFFFFFFF` and returns `0`: the failure is not propagated. The sibling caller
`highlightStruct`, on a struct `W { N f; }`, tests the same result (lines 184-185) and
returns `-1`. -/
theorem failure_overwritten_by_alias_of_same_name :
    highlightStruct 1 failureOverwritten ⟨"N", [⟨"x", .CustomType, "Foo", none⟩]⟩ 5 []
        = some (-1, [])
    ∧ highlightUsingDecls 2 failureOverwritten ⟨"A", .CustomType, "N"⟩ 5 []
        = some (0, [(18446744073709551615, 1)])
    ∧ highlightStruct 2 failureOverwritten ⟨"W", [⟨"f", .CustomType, "N", none⟩]⟩ 5 []
        = some (-1, []) := by
  decide

/-- Paths on which an unresolved name is reported as `-1`: `highlightStruct` returns `-1`
when a member's custom type name matches no Struct and no TypeDecl of the forest (and the
members before it return); `highlightUsingDecls` returns `-1` when the alias's custom target
name matches none; `highlightStruct` returns the `-1` of either recursive call;
`highlightUsingDecls` returns the `-1` of the TypeDecl it resolves, and the `-1` of the Struct
it resolves when no TypeDecl has the target's name. `highlightStruct (fuel + 1) ast s B sink`
is by definition the member loop `highlightStructLoop` on `s.nodes` started at `B`. -/
theorem unresolved_names_fail (fuel : Nat) (ast : List ASTNode) :
    (∀ (s : ASTNodeStruct) (pre post : List ASTNodeVariableDecl) (f : ASTNodeVariableDecl)
        (B : Nat) (sink sink1 : Sink) (r : Int),
        s.nodes = pre ++ f :: post → f.variableType = .CustomType →
        Unmatched ast f.customVariableTypeName →
        highlightStruct (fuel + 1) ast ⟨s.name, pre⟩ B sink = some (r, sink1) →
        highlightStruct (fuel + 1) ast s B sink = some (-1, sink1))
    ∧ (∀ (t : ASTNodeTypeDecl) (O : Nat) (sink : Sink),
        t.assignedType = .CustomType → Unmatched ast t.assignedCustomTypeName →
        highlightUsingDecls (fuel + 1) ast t O sink = some (-1, sink))
    ∧ (∀ (f : ASTNodeVariableDecl) (rest : List ASTNodeVariableDecl) (inner : ASTNodeStruct)
        (startOffset offset : Nat) (sink sink1 : Sink),
        f.variableType = .CustomType →
        (findStructs ast).find? (fun x => x.name == f.customVariableTypeName) = some inner →
        highlightStruct fuel ast inner offset sink = some (-1, sink1) →
        highlightStructLoop (highlightStruct fuel ast) (highlightUsingDecls fuel ast) ast
          startOffset (f :: rest) offset sink = some (-1, sink1))
    ∧ (∀ (f : ASTNodeVariableDecl) (rest : List ASTNodeVariableDecl) (inner : ASTNodeTypeDecl)
        (startOffset offset offset1 : Nat) (found1 : Bool) (sink sink1 sink2 : Sink),
        f.variableType = .CustomType →
        structFieldLookup (highlightStruct fuel ast) ast f.customVariableTypeName offset sink
          = some (.done offset1 found1 sink1) →
        (findTypeDecls ast).find? (fun x => x.typeName == f.customVariableTypeName)
          = some inner →
        highlightUsingDecls fuel ast inner offset1 sink1 = some (-1, sink2) →
        highlightStructLoop (highlightStruct fuel ast) (highlightUsingDecls fuel ast) ast
          startOffset (f :: rest) offset sink = some (-1, sink2))
    ∧ (∀ (t inner : ASTNodeTypeDecl) (O offset1 : Nat) (found1 : Bool)
        (sink sink1 sink2 : Sink),
        t.assignedType = .CustomType →
        usingStructLookup (highlightStruct fuel ast) ast t.assignedCustomTypeName O sink
          = some (offset1, found1, sink1) →
        (findTypeDecls ast).find? (fun x => x.typeName == t.assignedCustomTypeName)
          = some inner →
        highlightUsingDecls fuel ast inner offset1 sink1 = some (-1, sink2) →
        highlightUsingDecls (fuel + 1) ast t O sink = some (-1, sink2))
    ∧ (∀ (t : ASTNodeTypeDecl) (inner : ASTNodeStruct) (O : Nat) (sink sink1 : Sink),
        t.assignedType = .CustomType →
        (findStructs ast).find? (fun x => x.name == t.assignedCustomTypeName) = some inner →
        (findTypeDecls ast).find? (fun x => x.typeName == t.assignedCustomTypeName) = none →
        highlightStruct fuel ast inner O sink = some (-1, sink1) →
        highlightUsingDecls (fuel + 1) ast t O sink = some (-1, sink1)) := by
  refine ⟨?_, ?_, ?_, ?_, ?_, ?_⟩
  · intro s pre post f B sink sink1 r hnodes hty hun hpre
    rw [highlightStruct] at hpre ⊢
    rw [hnodes]
    exact highlightStructLoop_unmatched_after _ _ ast B f post hty hun pre B sink r sink1 hpre
  · intro t O sink hty hun
    rw [highlightUsingDecls]
    simp [hty, usingStructLookup, usingTypeDeclLookup, find_struct_none_of_unmatched ast _ hun,
      find_typeDecl_none_of_unmatched ast _ hun]
  · intro f rest inner startOffset offset sink sink1 hty hfind hcall
    rw [highlightStructLoop]
    simp [hty, structFieldLookup, hfind, hcall]
  · intro f rest inner startOffset offset offset1 found1 sink sink1 sink2 hty hstruct hfind hcall
    rw [highlightStructLoop]
    simp [hty, hstruct, typeDeclFieldLookup, hfind, hcall]
  · intro t inner O offset1 found1 sink sink1 sink2 hty hstruct hfind hcall
    rw [highlightUsingDecls]
    simp [hty, hstruct, usingTypeDeclLookup, hfind, hcall, toS32_s32ToU64_neg_one]
  · intro t inner O sink sink1 hty hfindS hfindT hcall
    rw [highlightUsingDecls]
    simp [hty, usingStructLookup, usingTypeDeclLookup, hfindS, hfindT, hcall,
      toS32_s32ToU64_neg_one]

/-- Instance of the lemma above: in `struct S { Foo x; }` after a member `u8 a`, and in
`using A = Foo;`, the unmatched name `Foo` gives `-1`. -/
theorem unresolved_names_fail_witness :
    highlightStruct 1 unknownFieldType
        ⟨"S", [⟨"a", u8, "", none⟩, ⟨"x", .CustomType, "Foo", none⟩]⟩ 7 [] = some (-1, [(7, 1)])
    ∧ highlightUsingDecls 1 unknownFieldType ⟨"A", .CustomType, "Foo"⟩ 7 [] = some (-1, []) :=
  ⟨(unresolved_names_fail 0 unknownFieldType).1
      ⟨"S", [⟨"a", u8, "", none⟩, ⟨"x", .CustomType, "Foo", none⟩]⟩ [⟨"a", u8, "", none⟩] []
      ⟨"x", .CustomType, "Foo", none⟩ 7 [] [(7, 1)] 1 rfl rfl (by decide) (by decide),
    (unresolved_names_fail 0 unknownFieldType).2.1 ⟨"A", .CustomType, "Foo"⟩ 7 [] rfl
      (by decide)⟩

theorem filter_structs_of_unmatched (ast : List ASTNode) (typeName : String)
    (h : Unmatched ast typeName) :
    (findStructs ast).filter (fun x => decide (typeName = x.name)) = [] := by
  rw [List.filter_eq_nil_iff]
  intro x hx
  rw [findStructs_eq, List.mem_filterMap] at hx
  obtain ⟨node, hnode, hcast⟩ := hx
  cases node with
  | Struct y =>
    have hxy : y = x := by simpa [ASTNode.asStruct] using hcast
    have := h _ hnode
    simp only [definedTypeName, hxy, ne_eq, Option.some.injEq] at this
    simpa using fun heq => this heq.symm
  | VariableDecl y => simp [ASTNode.asStruct] at hcast
  | TypeDecl y => simp [ASTNode.asStruct] at hcast

theorem filter_typeDecls_of_unmatched (ast : List ASTNode) (typeName : String)
    (h : Unmatched ast typeName) :
    (findTypeDecls ast).filter (fun x => decide (typeName = x.typeName)) = [] := by
  rw [List.filter_eq_nil_iff]
  intro x hx
  rw [findTypeDecls_eq, List.mem_filterMap] at hx
  obtain ⟨node, hnode, hcast⟩ := hx
  cases node with
  | TypeDecl y =>
    have hxy : y = x := by simpa [ASTNode.asTypeDecl] using hcast
    have := h _ hnode
    simp only [definedTypeName, hxy, ne_eq, Option.some.injEq] at this
    simpa using fun heq => this heq.symm
  | VariableDecl y => simp [ASTNode.asTypeDecl] at hcast
  | Struct y => simp [ASTNode.asTypeDecl] at hcast

/-- A top-level variable whose custom type name matches nothing leaves the sink as it is. -/
theorem resolveVariable_unmatched (fuel : Nat) (ast : List ASTNode) (v : ASTNodeVariableDecl)
    (sink : Sink) (hty : v.variableType = .CustomType)
    (hun : Unmatched ast v.customVariableTypeName) :
    resolveVariable fuel ast v sink = some sink := by
  cases hoff : v.offset with
  | none => simp [resolveVariable, hoff]
  | some O =>
    simp only [resolveVariable, hoff, hty]
    rw [topStructLoop_filter, filter_structs_of_unmatched ast _ hun, topStructLoop]
    simp only
    rw [topUsingLoop_filter, filter_typeDecls_of_unmatched ast _ hun, topUsingLoop]

theorem mem_findVariableDecls (ast : List ASTNode) (v : ASTNodeVariableDecl) :
    v ∈ findVariableDecls ast ↔ ASTNode.VariableDecl v ∈ ast := by
  rw [findVariableDecls_eq, List.mem_filterMap]
  constructor
  · rintro ⟨node, hnode, hcast⟩
    cases node with
    | VariableDecl y =>
      have hxy : y = v := by simpa [ASTNode.asVariableDecl] using hcast
      exact hxy ▸ hnode
    | Struct y => simp [ASTNode.asVariableDecl] at hcast
    | TypeDecl y => simp [ASTNode.asVariableDecl] at hcast
  · intro h
    exact ⟨_, h, rfl⟩

/-! ## Theorems on the pass as a whole -/

/-- C11 (counterexample): with the sink holding `[(1, 1)]`, a failing lexer (and likewise a
failing parser) makes `parsePattern` return with the sink empty, not with `[(1, 1)]`:
`clearHighlights` is the first statement of `parsePattern` (line 89), before lexing. -/
theorem lex_failure_clears_prior_spans :
    parsePattern (fun (_ : Unit) => (true, ())) (fun (_ : Unit) => (false, [])) 0 () [(1, 1)]
        = some []
    ∧ parsePattern (fun (_ : Unit) => (false, ())) (fun (_ : Unit) => (true, [])) 0 () [(1, 1)]
        = some []
    ∧ (some [] : Option Sink) ≠ some [(1, 1)] := by
  decide

/-- C11 (amended): for every prior sink state, when the lexer reports failure (or the parser
reports failure) `parsePattern` returns with the sink empty: `clear()` has been issued, before
lexing, and no `highlight()`. -/
theorem lex_or_parse_failure_leaves_sink_empty {Buffer Tokens : Type}
    (lexer : Buffer → Bool × Tokens) (parser : Tokens → Bool × List ASTNode) (fuel : Nat)
    (buffer : Buffer) (sink : Sink)
    (hfail : (lexer buffer).1 = true ∨ (parser (lexer buffer).2).1 = true) :
    parsePattern lexer parser fuel buffer sink = some (clearHighlights sink)
    ∧ parsePattern lexer parser fuel buffer sink = some [] := by
  have h : parsePattern lexer parser fuel buffer sink = some (clearHighlights sink) := by
    unfold parsePattern
    rcases hfail with hlex | hparse
    · simp [hlex]
    · by_cases hlex : (lexer buffer).1 = true
      · simp [hlex]
      · simp [hlex, hparse]
  exact ⟨h, h⟩

/-- Witness for C11 (amended): a failing lexer on a sink holding `[(1, 1)]`. -/
theorem lex_or_parse_failure_leaves_sink_empty_witness :
    parsePattern (fun (_ : Unit) => (true, ())) (fun (_ : Unit) => (false, [])) 0 () [(1, 1)]
      = some [] :=
  (lex_or_parse_failure_leaves_sink_empty (fun (_ : Unit) => (true, ()))
    (fun (_ : Unit) => (false, [])) 0 () [(1, 1)] (Or.inl rfl)).2

/-- C13: the sink after `parsePattern` does not depend on the sink before it, so for every
forest and every pair of prior sink states the pass leaves the same span sequence; running
the pass again on the sink it produced yields that same sequence again, nothing surviving
from the first run and nothing duplicated. -/
theorem pass_is_idempotent {Buffer Tokens : Type} (lexer : Buffer → Bool × Tokens)
    (parser : Tokens → Bool × List ASTNode) (fuel : Nat) (buffer : Buffer) (ast : List ASTNode) :
    (∀ sink1 sink2, parsePattern lexer parser fuel buffer sink1
        = parsePattern lexer parser fuel buffer sink2)
    ∧ (∀ sink result, parsePattern lexer parser fuel buffer sink = some result →
        parsePattern lexer parser fuel buffer result = some result)
    ∧ (∀ sink1 sink2, pass fuel ast sink1 = pass fuel ast sink2)
    ∧ (∀ sink result, pass fuel ast sink = some result → pass fuel ast result = some result) := by
  have h : ∀ sink1 sink2, parsePattern lexer parser fuel buffer sink1
      = parsePattern lexer parser fuel buffer sink2 := by
    intro sink1 sink2
    simp [parsePattern, clearHighlights]
  refine ⟨h, fun sink result hres => (h result sink).trans hres, ?_, ?_⟩
  · intro sink1 sink2
    rw [pass_eq, pass_eq]
  · intro sink result hres
    rw [pass_eq] at hres ⊢
    exact hres

/-- Witness for C13: Scenario A run on a sink holding old spans and run again on its result. -/
theorem pass_is_idempotent_witness :
    pass 1 scenarioA [(7, 7)] = pass 1 scenarioA []
    ∧ pass 1 scenarioA [(0x10, 1), (0x11, 2)] = some [(0x10, 1), (0x11, 2)] :=
  ⟨(pass_is_idempotent (fun (_ : Unit) => (false, ())) (fun (_ : Unit) => (false, scenarioA))
      1 () scenarioA).2.2.1 [(7, 7)] [],
    (pass_is_idempotent (fun (_ : Unit) => (false, ())) (fun (_ : Unit) => (false, scenarioA))
      1 () scenarioA).2.2.2 [] [(0x10, 1), (0x11, 2)] (by decide)⟩

/-- C14: when every offset-carrying top-level VariableDecl has a custom type name that
matches no Struct and no TypeDecl, no declaration changes the sink (no `highlight()`), so
after the initial `clear()` the pass ends with the sink empty. -/
theorem unmatched_declarations_leave_sink_empty (fuel : Nat) (ast : List ASTNode)
    (h : ∀ v, ASTNode.VariableDecl v ∈ ast → v.offset ≠ none →
      v.variableType = .CustomType ∧ Unmatched ast v.customVariableTypeName) :
    (∀ v sink, ASTNode.VariableDecl v ∈ ast → resolveVariable fuel ast v sink = some sink)
    ∧ (∀ sink, pass fuel ast sink = some []) := by
  have hvar : ∀ v sink, ASTNode.VariableDecl v ∈ ast →
      resolveVariable fuel ast v sink = some sink := by
    intro v sink hv
    cases hoff : v.offset with
    | none => simp [resolveVariable, hoff]
    | some O =>
      obtain ⟨hty, hun⟩ := h v hv (by simp [hoff])
      exact resolveVariable_unmatched fuel ast v sink hty hun
  refine ⟨hvar, fun sink => ?_⟩
  have hloop : ∀ (vars : List ASTNodeVariableDecl) (s : Sink),
      (∀ v ∈ vars, ASTNode.VariableDecl v ∈ ast) → resolveLoop fuel ast vars s = some s := by
    intro vars
    induction vars with
    | nil => intro s _; rfl
    | cons v rest ih =>
      intro s hmem
      rw [resolveLoop, hvar v s (hmem v (List.mem_cons_self _ _))]
      exact ih s (fun w hw => hmem w (List.mem_cons_of_mem _ hw))
  rw [pass_eq]
  exact hloop _ [] (fun v hv => (mem_findVariableDecls ast v).mp hv)

/-- Witness for C14 (Scenario C): `Foo f @ 0` with no `Foo` defined ends with an empty sink. -/
theorem unmatched_declarations_leave_sink_empty_witness :
    pass 0 scenarioC [(9, 9)] = some [] :=
  (unmatched_declarations_leave_sink_empty 0 scenarioC (by
    intro v hv _
    have hv' : v = ⟨"f", .CustomType, "Foo", some 0⟩ := by simpa [scenarioC] using hv
    subst hv'
    exact ⟨rfl, by decide⟩)).2 [(9, 9)]

/-! ## Lemmas: the resolver sees the forest only through its name lookups -/

theorem find?_eq_head?_filter {α : Type} (p : α → Bool) (l : List α) :
    l.find? p = (l.filter p).head? := by
  induction l with
  | nil => rfl
  | cons a rest ih =>
    cases hp : p a with
    | true => simp only [List.find?_cons, List.filter_cons, hp, if_true, List.head?_cons]
    | false =>
      simp only [List.find?_cons, List.filter_cons, hp, Bool.false_eq_true, if_false]
      exact ih

theorem find_struct_congr (ast ast' : List ASTNode) (h : SameTypes ast ast') (N : String) :
    (findStructs ast).find? (fun x => x.name == N)
      = (findStructs ast').find? (fun x => x.name == N) := by
  have hp : (fun (x : ASTNodeStruct) => x.name == N) = (fun x => decide (N = x.name)) := by
    funext x
    by_cases hx : N = x.name
    · simp [hx]
    · have hx' : ¬ x.name = N := fun e => hx e.symm
      simp [hx, hx']
  rw [find?_eq_head?_filter, find?_eq_head?_filter, hp, h.1 N]

theorem find_typeDecl_congr (ast ast' : List ASTNode) (h : SameTypes ast ast') (N : String) :
    (findTypeDecls ast).find? (fun x => x.typeName == N)
      = (findTypeDecls ast').find? (fun x => x.typeName == N) := by
  have hp : (fun (x : ASTNodeTypeDecl) => x.typeName == N)
      = (fun x => decide (N = x.typeName)) := by
    funext x
    by_cases hx : N = x.typeName
    · simp [hx]
    · have hx' : ¬ x.typeName = N := fun e => hx e.symm
      simp [hx, hx']
  rw [find?_eq_head?_filter, find?_eq_head?_filter, hp, h.2 N]

theorem highlightStructLoop_congr (recStruct : ASTNodeStruct → Nat → Sink → Outcome)
    (recUsing : ASTNodeTypeDecl → Nat → Sink → Outcome) (ast ast' : List ASTNode)
    (h : SameTypes ast ast') (startOffset : Nat) (fields : List ASTNodeVariableDecl)
    (offset : Nat) (sink : Sink) :
    highlightStructLoop recStruct recUsing ast startOffset fields offset sink
      = highlightStructLoop recStruct recUsing ast' startOffset fields offset sink := by
  induction fields generalizing offset sink with
  | nil => simp [highlightStructLoop]
  | cons f rest ih =>
    rw [highlightStructLoop, highlightStructLoop]
    cases hf : f.variableType with
    | primitive e => simp only [hf]; exact ih _ _
    | CustomType =>
      simp only [hf, structFieldLookup, typeDeclFieldLookup, find_struct_congr ast ast' h,
        find_typeDecl_congr ast ast' h, ih]

theorem highlight_congr (ast ast' : List ASTNode) (h : SameTypes ast ast') (fuel : Nat) :
    (∀ t offset sink, highlightUsingDecls fuel ast t offset sink
        = highlightUsingDecls fuel ast' t offset sink)
    ∧ (∀ s offset sink, highlightStruct fuel ast s offset sink
        = highlightStruct fuel ast' s offset sink) := by
  induction fuel with
  | zero => exact ⟨fun _ _ _ => by simp [highlightUsingDecls], fun _ _ _ => by simp [highlightStruct]⟩
  | succ n ih =>
    have hU : highlightUsingDecls n ast = highlightUsingDecls n ast' := by
      funext t offset sink; exact ih.1 t offset sink
    have hS : highlightStruct n ast = highlightStruct n ast' := by
      funext s offset sink; exact ih.2 s offset sink
    constructor
    · intro t offset sink
      rw [highlightUsingDecls, highlightUsingDecls]
      simp only [usingStructLookup, usingTypeDeclLookup, find_struct_congr ast ast' h,
        find_typeDecl_congr ast ast' h, hU, hS]
    · intro s offset sink
      rw [highlightStruct, highlightStruct, hU, hS]
      exact highlightStructLoop_congr _ _ ast ast' h _ _ _ _

theorem topStructLoop_congr (fuel : Nat) (ast ast' : List ASTNode) (h : SameTypes ast ast')
    (typeName : String) (offset : Nat) (structs : List ASTNodeStruct) (sink : Sink) :
    topStructLoop fuel ast typeName offset structs sink
      = topStructLoop fuel ast' typeName offset structs sink := by
  induction structs generalizing sink with
  | nil => rfl
  | cons x rest ih =>
    rw [topStructLoop, topStructLoop, (highlight_congr ast ast' h fuel).2]
    simp only [ih]

theorem topUsingLoop_congr (fuel : Nat) (ast ast' : List ASTNode) (h : SameTypes ast ast')
    (typeName : String) (offset : Nat) (usings : List ASTNodeTypeDecl) (sink : Sink) :
    topUsingLoop fuel ast typeName offset usings sink
      = topUsingLoop fuel ast' typeName offset usings sink := by
  induction usings generalizing sink with
  | nil => rfl
  | cons x rest ih =>
    rw [topUsingLoop, topUsingLoop, (highlight_congr ast ast' h fuel).1]
    simp only [ih]

theorem resolveVariable_congr (fuel : Nat) (ast ast' : List ASTNode) (h : SameTypes ast ast')
    (v : ASTNodeVariableDecl) (sink : Sink) :
    resolveVariable fuel ast v sink = resolveVariable fuel ast' v sink := by
  unfold resolveVariable
  cases v.offset with
  | none => rfl
  | some O =>
    cases v.variableType with
    | primitive e => rfl
    | CustomType =>
      simp only
      rw [topStructLoop_filter fuel ast, topStructLoop_filter fuel ast', h.1,
        topStructLoop_congr fuel ast ast' h]
      cases topStructLoop fuel ast' v.customVariableTypeName (O % 2 ^ 64)
          ((findStructs ast').filter (fun x => decide (v.customVariableTypeName = x.name)))
          sink with
      | none => rfl
      | some sink1 =>
        simp only
        rw [topUsingLoop_filter fuel ast, topUsingLoop_filter fuel ast', h.2,
          topUsingLoop_congr fuel ast ast' h]

theorem resolveLoop_congr (fuel : Nat) (ast ast' : List ASTNode) (h : SameTypes ast ast')
    (vars : List ASTNodeVariableDecl) (sink : Sink) :
    resolveLoop fuel ast vars sink = resolveLoop fuel ast' vars sink := by
  induction vars generalizing sink with
  | nil => rfl
  | cons v rest ih =>
    rw [resolveLoop, resolveLoop, resolveVariable_congr fuel ast ast' h]
    cases resolveVariable fuel ast' v sink with
    | none => rfl
    | some sink1 => exact ih sink1

/-! ## Lemmas on declarations without offset -/

theorem findStructs_removeUnplaced (ast : List ASTNode) :
    findStructs (removeUnplaced ast) = findStructs ast := by
  rw [findStructs_eq, findStructs_eq, removeUnplaced]
  induction ast with
  | nil => rfl
  | cons node rest ih =>
    cases node with
    | VariableDecl v =>
      cases hv : v.offset.isSome <;> simp [List.filter_cons, hv, ASTNode.asStruct, ih]
    | Struct x => simp [List.filter_cons, ASTNode.asStruct, ih]
    | TypeDecl x => simp [List.filter_cons, ASTNode.asStruct, ih]

theorem findTypeDecls_removeUnplaced (ast : List ASTNode) :
    findTypeDecls (removeUnplaced ast) = findTypeDecls ast := by
  rw [findTypeDecls_eq, findTypeDecls_eq, removeUnplaced]
  induction ast with
  | nil => rfl
  | cons node rest ih =>
    cases node with
    | VariableDecl v =>
      cases hv : v.offset.isSome <;> simp [List.filter_cons, hv, ASTNode.asTypeDecl, ih]
    | Struct x => simp [List.filter_cons, ASTNode.asTypeDecl, ih]
    | TypeDecl x => simp [List.filter_cons, ASTNode.asTypeDecl, ih]

theorem findVariableDecls_removeUnplaced (ast : List ASTNode) :
    findVariableDecls (removeUnplaced ast)
      = (findVariableDecls ast).filter (fun v => v.offset.isSome) := by
  rw [findVariableDecls_eq, findVariableDecls_eq, removeUnplaced]
  induction ast with
  | nil => rfl
  | cons node rest ih =>
    cases node with
    | VariableDecl v =>
      cases hv : v.offset.isSome <;> simp [List.filter_cons, hv, ASTNode.asVariableDecl, ih]
    | Struct x => simp [List.filter_cons, ASTNode.asVariableDecl, ih]
    | TypeDecl x => simp [List.filter_cons, ASTNode.asVariableDecl, ih]

theorem sameTypes_removeUnplaced (ast : List ASTNode) : SameTypes (removeUnplaced ast) ast :=
  ⟨fun _ => by rw [findStructs_removeUnplaced], fun _ => by rw [findTypeDecls_removeUnplaced]⟩

/-- Declarations without offset can be dropped from the list the loop of line 103 visits. -/
theorem resolveLoop_filter_placed (fuel : Nat) (ast : List ASTNode)
    (vars : List ASTNodeVariableDecl) (sink : Sink) :
    resolveLoop fuel ast (vars.filter (fun v => v.offset.isSome)) sink
      = resolveLoop fuel ast vars sink := by
  induction vars generalizing sink with
  | nil => rfl
  | cons v rest ih =>
    cases hv : v.offset with
    | none =>
      have hres : resolveVariable fuel ast v sink = some sink := by
        simp [resolveVariable, hv]
      rw [List.filter_cons_of_neg (by simp [hv]), resolveLoop, hres]
      exact ih sink
    | some O =>
      rw [List.filter_cons_of_pos (by simp [hv]), resolveLoop, resolveLoop]
      cases resolveVariable fuel ast v sink with
      | none => rfl
      | some sink1 => exact ih sink1

/-! ## Lemmas on reordering the forest -/

theorem length_le_one_of_same_key {α β : Type} (f : α → β) (c : β) (l : List α)
    (hall : ∀ x ∈ l, f x = c) (hnodup : (l.map f).Nodup) : l.length ≤ 1 := by
  match l, hall, hnodup with
  | [], _, _ => simp
  | [_], _, _ => simp
  | a :: b :: rest, hall, hnodup =>
    have ha : f a = c := hall a (by simp)
    have hb : f b = c := hall b (by simp)
    simp only [List.map_cons, List.nodup_cons, List.mem_cons] at hnodup
    exact absurd (Or.inl (ha.trans hb.symm)) hnodup.1

theorem eq_of_perm_of_length_le_one {α : Type} (l l' : List α) (hperm : l.Perm l')
    (hlen : l.length ≤ 1) : l = l' := by
  match l, hperm, hlen with
  | [], hperm, _ => exact hperm.nil_eq
  | [a], hperm, _ => exact (List.perm_singleton.mp hperm.symm).symm
  | _ :: _ :: _, _, hlen => simp at hlen

theorem filter_eq_of_perm_of_nodup {α : Type} (key : α → String) (l l' : List α)
    (hperm : l.Perm l') (hnodup : (l.map key).Nodup) (N : String) :
    l.filter (fun x => decide (N = key x)) = l'.filter (fun x => decide (N = key x)) := by
  apply eq_of_perm_of_length_le_one _ _ (hperm.filter _)
  apply length_le_one_of_same_key key N
  · intro x hx
    have hx' : N = key x := by simpa using (List.mem_filter.mp hx).2
    exact hx'.symm
  · exact List.Nodup.sublist ((List.filter_sublist _).map key) hnodup

theorem sameTypes_of_perm (ast ast' : List ASTNode) (hperm : ast'.Perm ast)
    (huniq : UniqueTypeNames ast) : SameTypes ast' ast := by
  have hS : (findStructs ast').Perm (findStructs ast) := by
    rw [findStructs_eq, findStructs_eq]; exact hperm.filterMap _
  have hT : (findTypeDecls ast').Perm (findTypeDecls ast) := by
    rw [findTypeDecls_eq, findTypeDecls_eq]; exact hperm.filterMap _
  constructor
  · intro N
    exact (filter_eq_of_perm_of_nodup (fun x => x.name) _ _ hS.symm huniq.1 N).symm
  · intro N
    exact (filter_eq_of_perm_of_nodup (fun x => x.typeName) _ _ hT.symm huniq.2 N).symm

theorem pass_eq_of_perm (fuel : Nat) (ast ast' : List ASTNode) (hperm : ast'.Perm ast)
    (hvars : findVariableDecls ast' = findVariableDecls ast) (huniq : UniqueTypeNames ast)
    (sink sink' : Sink) : pass fuel ast' sink = pass fuel ast sink' := by
  rw [pass_eq, pass_eq, hvars]
  exact resolveLoop_congr fuel ast' ast (sameTypes_of_perm ast ast' hperm huniq) _ _

/-! ## Theorems on the participating declarations and on lookup position -/

/-- C12: removing all top-level VariableDecl nodes without explicit offset from a forest
yields the same final span sequence (and the same termination behaviour); a forest whose
VariableDecls all lack an offset ends the pass with zero spans. -/
theorem unplaced_declarations_do_not_participate (fuel : Nat) (ast : List ASTNode) :
    (∀ sink sink', pass fuel (removeUnplaced ast) sink = pass fuel ast sink')
    ∧ ((∀ v, ASTNode.VariableDecl v ∈ ast → v.offset = none) →
        ∀ sink, pass fuel ast sink = some []) := by
  constructor
  · intro sink sink'
    rw [pass_eq, pass_eq, findVariableDecls_removeUnplaced,
      resolveLoop_congr fuel _ ast (sameTypes_removeUnplaced ast), resolveLoop_filter_placed]
  · intro hnone sink
    have hfilter : (findVariableDecls ast).filter (fun v => v.offset.isSome) = [] := by
      rw [List.filter_eq_nil_iff]
      intro v hv
      simp [hnone v ((mem_findVariableDecls ast v).mp hv)]
    rw [pass_eq, ← resolveLoop_filter_placed, hfilter, resolveLoop]

/-- Witness for C12: dropping `u8 pad` (no offset) from
`Word w @ 4; u8 pad; using Word = u16;` leaves the result `[(4, 2)]`. -/
theorem unplaced_declarations_do_not_participate_witness :
    pass 1 [.VariableDecl ⟨"w", .CustomType, "Word", some 4⟩, .TypeDecl ⟨"Word", u16, ""⟩] []
        = pass 1 aliasAfterUse []
    ∧ pass 1 aliasAfterUse [] = some [(4, 2)]
    ∧ pass 0 [.VariableDecl ⟨"pad", u8, "", none⟩] [(1, 1)] = some [] :=
  ⟨(unplaced_declarations_do_not_participate 1 aliasAfterUse).1 [] [], by decide,
    (unplaced_declarations_do_not_participate 0 [.VariableDecl ⟨"pad", u8, "", none⟩]).2
      (by
        intro v hv
        have hv' : v = ⟨"pad", u8, "", none⟩ := by simpa using hv
        rw [hv']) [(1, 1)]⟩

/-- C15: in a forest with unique type names, moving a Struct or TypeDecl node to another
position among the top-level nodes (across any nodes `mid`), and more generally any
reordering of the forest that keeps the VariableDecl nodes in their order, does not change
the final span sequence (nor whether the pass terminates). -/
theorem lookup_ignores_position (fuel : Nat) (pre mid post : List ASTNode) (node : ASTNode)
    (hkind : node.getType ≠ .VariableDecl)
    (huniq : UniqueTypeNames (pre ++ node :: (mid ++ post))) :
    (∀ sink sink', pass fuel (pre ++ (mid ++ node :: post)) sink
        = pass fuel (pre ++ node :: (mid ++ post)) sink')
    ∧ (∀ (ast' : List ASTNode) (sink sink' : Sink),
        ast'.Perm (pre ++ node :: (mid ++ post)) →
        findVariableDecls ast' = findVariableDecls (pre ++ node :: (mid ++ post)) →
        pass fuel ast' sink = pass fuel (pre ++ node :: (mid ++ post)) sink') := by
  have hgen : ∀ (ast' : List ASTNode) (sink sink' : Sink),
      ast'.Perm (pre ++ node :: (mid ++ post)) →
      findVariableDecls ast' = findVariableDecls (pre ++ node :: (mid ++ post)) →
      pass fuel ast' sink = pass fuel (pre ++ node :: (mid ++ post)) sink' :=
    fun ast' sink sink' hperm hvars => pass_eq_of_perm fuel _ ast' hperm hvars huniq sink sink'
  refine ⟨fun sink sink' => hgen _ sink sink' ?_ ?_, hgen⟩
  · apply List.Perm.append_left
    exact List.perm_middle
  · have hnode : node.asVariableDecl = none := by
      cases node with
      | VariableDecl v => exact absurd rfl hkind
      | Struct x => rfl
      | TypeDecl x => rfl
    simp [findVariableDecls_eq, List.filterMap_append, List.filterMap_cons, hnode]

/-- Witness for C15: `using Word = u16;` moved from the end of the forest to its start. -/
theorem lookup_ignores_position_witness :
    pass 1 aliasAfterUse []
        = pass 1 [.TypeDecl ⟨"Word", u16, ""⟩,
            .VariableDecl ⟨"w", .CustomType, "Word", some 4⟩,
            .VariableDecl ⟨"pad", u8, "", none⟩] []
    ∧ pass 1 aliasAfterUse [] = some [(4, 2)] :=
  ⟨(lookup_ignores_position 1 []
      [.VariableDecl ⟨"w", .CustomType, "Word", some 4⟩, .VariableDecl ⟨"pad", u8, "", none⟩] []
      (.TypeDecl ⟨"Word", u16, ""⟩) (by decide) (by decide)).1 [] [], by decide⟩

/-! ## Lemmas on structs with alias-typed members -/

theorem s32ToU64_natCast (n : Nat) (h : n < 2 ^ 64) : s32ToU64 (n : Int) = n := by
  unfold s32ToU64
  omega

theorem highlightStructLoop_resolved (recStruct : ASTNodeStruct → Nat → Sink → Outcome)
    (fuel maxDepth : Nat) (ast : List ASTNode) (hfuel : maxDepth ≤ fuel) (startOffset : Nat)
    (fields : List ASTNodeVariableDecl) (sizes : List Nat)
    (hres : List.Forall₂ (FieldResolves ast maxDepth) fields sizes) (offset : Nat) (sink : Sink)
    (hfit : offset + sizes.sum < 2 ^ 31) :
    highlightStructLoop recStruct (highlightUsingDecls fuel ast) ast startOffset fields offset
        sink
      = some (toS32 ((offset + sizes.sum + 2 ^ 64 - startOffset) % 2 ^ 64),
          sink ++ layoutSpans offset sizes) := by
  induction hres generalizing offset sink with
  | nil => simp [highlightStructLoop, layoutSpans]
  | @cons f size rest sizes hf _ ih =>
    rw [List.sum_cons] at hfit
    have hnext : (offset + size) % 2 ^ 64 = offset + size := Nat.mod_eq_of_lt (by omega)
    have hgoal : ∀ (snk : Sink),
        highlightStructLoop recStruct (highlightUsingDecls fuel ast) ast startOffset rest
            (offset + size) (snk ++ [(offset, size)])
          = some (toS32 ((offset + (size :: sizes).sum + 2 ^ 64 - startOffset) % 2 ^ 64),
              snk ++ layoutSpans offset (size :: sizes)) := by
      intro snk
      rw [ih (offset + size) (snk ++ [(offset, size)]) (by omega)]
      simp [layoutSpans, List.sum_cons, Nat.add_assoc]
    rw [highlightStructLoop]
    rcases hf with ⟨e, hty, hsize⟩ | ⟨hty, hstruct, t, depth, hfind, hdepth, hchain⟩
    · simp only [hty, setHighlight, ← hsize, hnext]
      exact hgoal sink
    · have hcall := highlightUsingDecls_aliasChain ast t depth size hchain fuel offset sink
        (by omega)
      rw [hnext, toS32_of_lt _ (by omega)] at hcall
      have hne : (((offset + size : Nat) : Int) = -1) = False := by
        simp only [eq_iff_iff, iff_false]; omega
      simp only [hty, structFieldLookup, hstruct, typeDeclFieldLookup, hfind, hcall, hne,
        if_false, if_true, s32ToU64_natCast (offset + size) (by omega)]
      exact hgoal sink

/-! ## Theorems on the `s32` results -/

/-- C16 (failing input): `using Word = u16; struct Packet { Word w; } u8 a @ 0;
Packet p @ 0xFFFFFFFD` is acyclic and every custom type name matches, yet
`highlightUsingDecls` on `Word` and `highlightStruct` on `Packet` at `0xFFFFFFFD` both return
`-1` after emitting `(0xFFFFFFFD, 2)`, and the pass clears the sink, dropping that span and
the span `(0, 1)` of `a` emitted before. -/
theorem resolved_forest_returns_sentinel :
    highlightUsingDecls 1 structAtSentinel ⟨"Word", u16, ""⟩ 0xFFFFFFFD [(0, 1)]
        = some (-1, [(0, 1), (0xFFFFFFFD, 2)])
    ∧ highlightStruct 2 structAtSentinel packetStruct 0xFFFFFFFD [(0, 1)]
        = some (-1, [(0, 1), (0xFFFFFFFD, 2)])
    ∧ pass 2 structAtSentinel [] = some [] := by
  decide

/-- C17: for a Struct whose members are each primitive or an alias chain ending in a
primitive (no Struct named like the alias), with resolved sizes `s1..sN`, placed at base `B`
with `B + s1 + ... + sN < 2^31`, `highlightStruct` emits exactly
`(B, s1), (B + s1, s2), ...` in member order and returns `s1 + ... + sN`, given fuel for the
longest alias chain. -/
theorem alias_members_advance_offset (fuel maxDepth : Nat) (ast : List ASTNode)
    (s : ASTNodeStruct) (sizes : List Nat) (B : Nat)
    (hres : List.Forall₂ (FieldResolves ast maxDepth) s.nodes sizes)
    (hfuel : maxDepth ≤ fuel) (hfit : B + sizes.sum < 2 ^ 31) (sink : Sink) :
    highlightStruct (fuel + 1) ast s B sink
      = some ((sizes.sum : Int), sink ++ layoutSpans B sizes) := by
  rw [highlightStruct, highlightStructLoop_resolved _ fuel maxDepth ast hfuel B s.nodes sizes
    hres B sink hfit]
  have h : (B + sizes.sum + 2 ^ 64 - B) % 2 ^ 64 = sizes.sum := by omega
  rw [h, toS32_of_lt _ (by omega)]

/-- Witness for C17: `struct Mixed { u8 tag; Word w; Byte b; }` with `using Word = u16;
using Octet = u8; using Byte = Octet;` at base `0x10`. -/
theorem alias_members_advance_offset_witness :
    highlightStruct 3 mixedForest mixedStruct 0x10 []
      = some ((([1, 2, 1] : List Nat).sum : Int), [] ++ layoutSpans 0x10 [1, 2, 1]) :=
  alias_members_advance_offset 2 2 mixedForest mixedStruct [1, 2, 1] 0x10
    (List.Forall₂.cons (Or.inl ⟨0x10, rfl, rfl⟩)
      (List.Forall₂.cons
        (Or.inr ⟨rfl, by decide, ⟨"Word", u16, ""⟩, 1, by decide, by decide,
          AliasChain.base _ 0x20 rfl⟩)
        (List.Forall₂.cons
          (Or.inr ⟨rfl, by decide, ⟨"Byte", .CustomType, "Octet"⟩, 2, by decide, by decide,
            AliasChain.step _ ⟨"Octet", u8, ""⟩ 1 _ rfl (by decide) (by decide)
              (AliasChain.base _ 0x10 rfl)⟩)
          List.Forall₂.nil)))
    (by decide) (by decide) []

/-! ## Lemmas on termination -/

theorem mem_findStructs (ast : List ASTNode) (x : ASTNodeStruct) :
    x ∈ findStructs ast ↔ ASTNode.Struct x ∈ ast := by
  rw [findStructs_eq, List.mem_filterMap]
  constructor
  · rintro ⟨node, hnode, hcast⟩
    cases node with
    | Struct y =>
      have hxy : y = x := by simpa [ASTNode.asStruct] using hcast
      exact hxy ▸ hnode
    | VariableDecl y => simp [ASTNode.asStruct] at hcast
    | TypeDecl y => simp [ASTNode.asStruct] at hcast
  · intro h
    exact ⟨_, h, rfl⟩

theorem mem_findTypeDecls (ast : List ASTNode) (x : ASTNodeTypeDecl) :
    x ∈ findTypeDecls ast ↔ ASTNode.TypeDecl x ∈ ast := by
  rw [findTypeDecls_eq, List.mem_filterMap]
  constructor
  · rintro ⟨node, hnode, hcast⟩
    cases node with
    | TypeDecl y =>
      have hxy : y = x := by simpa [ASTNode.asTypeDecl] using hcast
      exact hxy ▸ hnode
    | VariableDecl y => simp [ASTNode.asTypeDecl] at hcast
    | Struct y => simp [ASTNode.asTypeDecl] at hcast
  · intro h
    exact ⟨_, h, rfl⟩

theorem typeNodeCount_eq (ast : List ASTNode) :
    (ast.filter (fun node => (definedTypeName node).isSome)).length = typeNodeCount ast := by
  rw [typeNodeCount, findStructs_eq, findTypeDecls_eq]
  induction ast with
  | nil => rfl
  | cons node rest ih =>
    cases node with
    | VariableDecl v =>
      have hv : (definedTypeName (.VariableDecl v)).isSome = false := rfl
      rw [List.filter_cons_of_neg (p := fun node => (definedTypeName node).isSome)
        (by simp [hv])]
      simpa [ASTNode.asStruct, ASTNode.asTypeDecl] using ih
    | Struct x =>
      have hx : (definedTypeName (.Struct x)).isSome = true := rfl
      rw [List.filter_cons_of_pos (p := fun node => (definedTypeName node).isSome) hx]
      simp only [List.length_cons, List.filterMap_cons, ASTNode.asStruct, ASTNode.asTypeDecl, ih]
      omega
    | TypeDecl x =>
      have hx : (definedTypeName (.TypeDecl x)).isSome = true := rfl
      rw [List.filter_cons_of_pos (p := fun node => (definedTypeName node).isSome) hx]
      simp only [List.length_cons, List.filterMap_cons, ASTNode.asStruct, ASTNode.asTypeDecl, ih]
      omega

/-- A duplicate-free list of Struct and TypeDecl nodes of the forest is no longer than the
number of such nodes. -/
theorem path_length_le (ast path : List ASTNode) (hnodup : path.Nodup)
    (hmem : ∀ y ∈ path, y ∈ ast ∧ (definedTypeName y).isSome = true) :
    path.length ≤ typeNodeCount ast := by
  rw [← typeNodeCount_eq]
  apply List.Subperm.length_le
  apply List.Nodup.subperm hnodup
  intro y hy
  exact List.mem_filter.mpr ⟨(hmem y hy).1, (hmem y hy).2⟩

/-- The member loop returns when the recursive calls it can make return. -/
theorem highlightStructLoop_terminates (recStruct : ASTNodeStruct → Nat → Sink → Outcome)
    (recUsing : ASTNodeTypeDecl → Nat → Sink → Outcome) (ast : List ASTNode) (startOffset : Nat)
    (fields : List ASTNodeVariableDecl)
    (hS : ∀ f ∈ fields, f.variableType = .CustomType → ∀ inner,
      (findStructs ast).find? (fun x => x.name == f.customVariableTypeName) = some inner →
      ∀ O sink, ∃ r, recStruct inner O sink = some r)
    (hU : ∀ f ∈ fields, f.variableType = .CustomType → ∀ inner,
      (findTypeDecls ast).find? (fun x => x.typeName == f.customVariableTypeName) = some inner →
      ∀ O sink, ∃ r, recUsing inner O sink = some r)
    (offset : Nat) (sink : Sink) :
    ∃ r, highlightStructLoop recStruct recUsing ast startOffset fields offset sink = some r := by
  induction fields generalizing offset sink with
  | nil => exact ⟨_, by rw [highlightStructLoop]⟩
  | cons f rest ih =>
    have ih' := ih (fun g hg => hS g (List.mem_cons_of_mem _ hg))
      (fun g hg => hU g (List.mem_cons_of_mem _ hg))
    rw [highlightStructLoop]
    cases hty : f.variableType with
    | primitive e => simp only [hty]; exact ih' _ _
    | CustomType =>
      simp only [hty]
      have h1 : ∃ l, structFieldLookup recStruct ast f.customVariableTypeName offset sink
          = some l := by
        unfold structFieldLookup
        cases hfind : (findStructs ast).find? (fun x => x.name == f.customVariableTypeName) with
        | none => exact ⟨_, rfl⟩
        | some inner =>
          obtain ⟨⟨size, sink1⟩, hr⟩ := hS f (List.mem_cons_self _ _) hty inner hfind offset sink
          simp only [hr]
          split <;> exact ⟨_, rfl⟩
      obtain ⟨l, hl⟩ := h1
      rw [hl]
      cases l with
      | failed s1 => exact ⟨_, rfl⟩
      | done o1 f1 s1 =>
        simp only
        have h2 : ∃ l2, typeDeclFieldLookup recUsing ast f.customVariableTypeName o1 f1 s1
            = some l2 := by
          unfold typeDeclFieldLookup
          cases hfind : (findTypeDecls ast).find?
              (fun x => x.typeName == f.customVariableTypeName) with
          | none => exact ⟨_, rfl⟩
          | some inner =>
            obtain ⟨⟨size, sink1⟩, hr⟩ := hU f (List.mem_cons_self _ _) hty inner hfind o1 s1
            simp only [hr]
            split <;> exact ⟨_, rfl⟩
        obtain ⟨l2, hl2⟩ := h2
        rw [hl2]
        cases l2 with
        | failed s2 => exact ⟨_, rfl⟩
        | done o2 f2 s2 =>
          cases f2 with
          | true => simp only [if_true]; exact ih' _ _
          | false => exact ⟨_, rfl⟩

/-- The alias function returns when the recursive calls it can make return. -/
theorem highlightUsingDecls_terminates (fuel : Nat) (ast : List ASTNode) (t : ASTNodeTypeDecl)
    (hS : t.assignedType = .CustomType → ∀ inner,
      (findStructs ast).find? (fun x => x.name == t.assignedCustomTypeName) = some inner →
      ∀ O sink, ∃ r, highlightStruct fuel ast inner O sink = some r)
    (hU : t.assignedType = .CustomType → ∀ inner,
      (findTypeDecls ast).find? (fun x => x.typeName == t.assignedCustomTypeName) = some inner →
      ∀ O sink, ∃ r, highlightUsingDecls fuel ast inner O sink = some r)
    (offset : Nat) (sink : Sink) :
    ∃ r, highlightUsingDecls (fuel + 1) ast t offset sink = some r := by
  rw [highlightUsingDecls]
  cases hty : t.assignedType with
  | primitive e => exact ⟨_, rfl⟩
  | CustomType =>
    simp only
    have h1 : ∃ l, usingStructLookup (highlightStruct fuel ast) ast t.assignedCustomTypeName
        offset sink = some l := by
      unfold usingStructLookup
      cases hfind : (findStructs ast).find? (fun x => x.name == t.assignedCustomTypeName) with
      | none => exact ⟨_, rfl⟩
      | some inner =>
        obtain ⟨⟨size, sink1⟩, hr⟩ := hS hty inner hfind offset sink
        simp only [hr]
        exact ⟨_, rfl⟩
    obtain ⟨⟨o1, f1, s1⟩, hl⟩ := h1
    rw [hl]
    simp only
    have h2 : ∃ l2, usingTypeDeclLookup (highlightUsingDecls fuel ast) ast
        t.assignedCustomTypeName o1 f1 s1 = some l2 := by
      unfold usingTypeDeclLookup
      cases hfind : (findTypeDecls ast).find?
          (fun x => x.typeName == t.assignedCustomTypeName) with
      | none => exact ⟨_, rfl⟩
      | some inner =>
        obtain ⟨⟨size, sink1⟩, hr⟩ := hU hty inner hfind o1 s1
        simp only [hr]
        exact ⟨_, rfl⟩
    obtain ⟨⟨o2, f2, s2⟩, hl2⟩ := h2
    rw [hl2]
    simp only
    split <;> exact ⟨_, rfl⟩

theorem references_struct_of_member (ast : List ASTNode) (s inner : ASTNodeStruct)
    (f : ASTNodeVariableDecl) (hs : ASTNode.Struct s ∈ ast) (hf : f ∈ s.nodes)
    (hty : f.variableType = .CustomType)
    (hfind : (findStructs ast).find? (fun x => x.name == f.customVariableTypeName)
      = some inner) :
    References ast (.Struct s) (.Struct inner) := by
  refine ⟨hs, (mem_findStructs ast inner).mp (List.mem_of_find?_eq_some hfind),
    f.customVariableTypeName, ?_, ?_⟩
  · simp only [referencedNames, List.mem_map, List.mem_filter]
    exact ⟨f, ⟨hf, by simp [hty]⟩, rfl⟩
  · have := List.find?_some hfind
    simp only [beq_iff_eq] at this
    simp [definedTypeName, this]

theorem references_typeDecl_of_member (ast : List ASTNode) (s : ASTNodeStruct)
    (inner : ASTNodeTypeDecl) (f : ASTNodeVariableDecl) (hs : ASTNode.Struct s ∈ ast)
    (hf : f ∈ s.nodes) (hty : f.variableType = .CustomType)
    (hfind : (findTypeDecls ast).find? (fun x => x.typeName == f.customVariableTypeName)
      = some inner) :
    References ast (.Struct s) (.TypeDecl inner) := by
  refine ⟨hs, (mem_findTypeDecls ast inner).mp (List.mem_of_find?_eq_some hfind),
    f.customVariableTypeName, ?_, ?_⟩
  · simp only [referencedNames, List.mem_map, List.mem_filter]
    exact ⟨f, ⟨hf, by simp [hty]⟩, rfl⟩
  · have := List.find?_some hfind
    simp only [beq_iff_eq] at this
    simp [definedTypeName, this]

theorem references_struct_of_target (ast : List ASTNode) (t : ASTNodeTypeDecl)
    (inner : ASTNodeStruct) (ht : ASTNode.TypeDecl t ∈ ast) (hty : t.assignedType = .CustomType)
    (hfind : (findStructs ast).find? (fun x => x.name == t.assignedCustomTypeName)
      = some inner) :
    References ast (.TypeDecl t) (.Struct inner) := by
  refine ⟨ht, (mem_findStructs ast inner).mp (List.mem_of_find?_eq_some hfind),
    t.assignedCustomTypeName, ?_, ?_⟩
  · simp [referencedNames, hty]
  · have := List.find?_some hfind
    simp only [beq_iff_eq] at this
    simp [definedTypeName, this]

theorem references_typeDecl_of_target (ast : List ASTNode) (t inner : ASTNodeTypeDecl)
    (ht : ASTNode.TypeDecl t ∈ ast) (hty : t.assignedType = .CustomType)
    (hfind : (findTypeDecls ast).find? (fun x => x.typeName == t.assignedCustomTypeName)
      = some inner) :
    References ast (.TypeDecl t) (.TypeDecl inner) := by
  refine ⟨ht, (mem_findTypeDecls ast inner).mp (List.mem_of_find?_eq_some hfind),
    t.assignedCustomTypeName, ?_, ?_⟩
  · simp [referencedNames, hty]
  · have := List.find?_some hfind
    simp only [beq_iff_eq] at this
    simp [definedTypeName, this]

/-- Along a chain of calls (the nodes of `path`, all distinct, each reaching the current node
`x` through references) the functions return when the fuel covers the nodes not yet on the
chain. -/
theorem highlight_terminates_on_path (ast : List ASTNode) (hacyclic : Acyclic ast) (fuel : Nat) :
    ∀ (path : List ASTNode) (x : ASTNode), path.Nodup →
      (∀ y ∈ path, y ∈ ast ∧ (definedTypeName y).isSome = true) →
      (∀ y ∈ path, Relation.ReflTransGen (References ast) y x) → x ∈ path →
      typeNodeCount ast < fuel + path.length →
      (∀ s, x = .Struct s → ∀ O sink, ∃ r, highlightStruct fuel ast s O sink = some r)
      ∧ (∀ t, x = .TypeDecl t → ∀ O sink, ∃ r, highlightUsingDecls fuel ast t O sink = some r) := by
  induction fuel with
  | zero =>
    intro path x hnodup hmem _ _ hlt
    have := path_length_le ast path hnodup hmem
    omega
  | succ n ih =>
    intro path x hnodup hmem hreach hx hlt
    have hxast : x ∈ ast := (hmem x hx).1
    have hrec : ∀ z, References ast x z →
        (∀ s, z = .Struct s → ∀ O sink, ∃ r, highlightStruct n ast s O sink = some r)
        ∧ (∀ t, z = .TypeDecl t → ∀ O sink, ∃ r, highlightUsingDecls n ast t O sink = some r) := by
      intro z hxz
      have hz : z ∉ path := by
        intro hzin
        exact hacyclic z (Relation.TransGen.tail' (hreach z hzin) hxz)
      apply ih (z :: path) z (List.nodup_cons.mpr ⟨hz, hnodup⟩)
      · intro y hy
        rcases List.mem_cons.mp hy with rfl | hy'
        · obtain ⟨_, hzast, N, _, hN⟩ := hxz
          exact ⟨hzast, by simp [hN]⟩
        · exact hmem y hy'
      · intro y hy
        rcases List.mem_cons.mp hy with rfl | hy'
        · exact Relation.ReflTransGen.refl
        · exact Relation.ReflTransGen.tail (hreach y hy') hxz
      · exact List.mem_cons_self _ _
      · simp only [List.length_cons]; omega
    constructor
    · intro s hs O sink
      subst hs
      rw [highlightStruct]
      apply highlightStructLoop_terminates
      · intro f hf hty inner hfind
        exact (hrec _ (references_struct_of_member ast s inner f hxast hf hty hfind)).1 inner rfl
      · intro f hf hty inner hfind
        exact (hrec _ (references_typeDecl_of_member ast s inner f hxast hf hty hfind)).2
          inner rfl
    · intro t ht O sink
      subst ht
      apply highlightUsingDecls_terminates
      · intro hty inner hfind
        exact (hrec _ (references_struct_of_target ast t inner hxast hty hfind)).1 inner rfl
      · intro hty inner hfind
        exact (hrec _ (references_typeDecl_of_target ast t inner hxast hty hfind)).2 inner rfl

theorem topStructLoop_terminates (fuel : Nat) (ast : List ASTNode) (typeName : String)
    (offset : Nat) (structs : List ASTNodeStruct)
    (h : ∀ s ∈ structs, ∀ O sink, ∃ r, highlightStruct fuel ast s O sink = some r)
    (sink : Sink) : ∃ r, topStructLoop fuel ast typeName offset structs sink = some r := by
  induction structs generalizing sink with
  | nil => exact ⟨_, rfl⟩
  | cons x rest ih =>
    have ih' := ih (fun s hs => h s (List.mem_cons_of_mem _ hs))
    rw [topStructLoop]
    split
    · obtain ⟨⟨r, sink1⟩, hr⟩ := h x (List.mem_cons_self _ _) offset sink
      simp only [hr]
      exact ih' _
    · exact ih' _

theorem topUsingLoop_terminates (fuel : Nat) (ast : List ASTNode) (typeName : String)
    (offset : Nat) (usings : List ASTNodeTypeDecl)
    (h : ∀ t ∈ usings, ∀ O sink, ∃ r, highlightUsingDecls fuel ast t O sink = some r)
    (sink : Sink) : ∃ r, topUsingLoop fuel ast typeName offset usings sink = some r := by
  induction usings generalizing sink with
  | nil => exact ⟨_, rfl⟩
  | cons x rest ih =>
    have ih' := ih (fun t ht => h t (List.mem_cons_of_mem _ ht))
    rw [topUsingLoop]
    split
    · obtain ⟨⟨r, sink1⟩, hr⟩ := h x (List.mem_cons_self _ _) offset sink
      simp only [hr]
      exact ih' _
    · exact ih' _

theorem resolveLoop_terminates (fuel : Nat) (ast : List ASTNode)
    (hS : ∀ s ∈ findStructs ast, ∀ O sink, ∃ r, highlightStruct fuel ast s O sink = some r)
    (hU : ∀ t ∈ findTypeDecls ast, ∀ O sink, ∃ r, highlightUsingDecls fuel ast t O sink = some r)
    (vars : List ASTNodeVariableDecl) (sink : Sink) :
    ∃ r, resolveLoop fuel ast vars sink = some r := by
  induction vars generalizing sink with
  | nil => exact ⟨_, rfl⟩
  | cons v rest ih =>
    have hv : ∃ r, resolveVariable fuel ast v sink = some r := by
      unfold resolveVariable
      cases v.offset with
      | none => exact ⟨_, rfl⟩
      | some O =>
        cases v.variableType with
        | primitive e => exact ⟨_, rfl⟩
        | CustomType =>
          simp only
          obtain ⟨sink1, h1⟩ := topStructLoop_terminates fuel ast v.customVariableTypeName
            (O % 2 ^ 64) (findStructs ast) hS sink
          rw [h1]
          exact topUsingLoop_terminates fuel ast _ _ (findTypeDecls ast) hU sink1
    obtain ⟨sink1, h1⟩ := hv
    rw [resolveLoop, h1]
    exact ih sink1

/-- A rank that decreases along every reference shows that the forest is acyclic. -/
theorem acyclic_of_rank (ast : List ASTNode) (rank : ASTNode → Nat)
    (h : ∀ x ∈ ast, ∀ y ∈ ast, (∃ N ∈ referencedNames x, definedTypeName y = some N) →
      rank y < rank x) : Acyclic ast := by
  have hlt : ∀ x y, Relation.TransGen (References ast) x y → rank y < rank x := by
    intro x y hxy
    induction hxy with
    | single hab => exact h _ hab.1 _ hab.2.1 hab.2.2
    | tail _ hbc ih => exact lt_trans (h _ hbc.1 _ hbc.2.1 hbc.2.2) ih
  intro x hx
  exact lt_irrefl _ (hlt x x hx)

/-! ## Theorem on termination -/

/-- C18: when the reference relation between the Struct and TypeDecl nodes of a forest has no
cycle, `highlightStruct` and `highlightUsingDecls` return on every Struct and TypeDecl of
the forest, and the whole pass returns, with a recursion depth of at most the number of
Struct and TypeDecl nodes of the forest (fuel is the recursion depth allowed). -/
theorem terminates_when_acyclic (ast : List ASTNode) (hacyclic : Acyclic ast) (fuel : Nat)
    (hfuel : typeNodeCount ast ≤ fuel) :
    (∀ s ∈ findStructs ast, ∀ O sink, ∃ r, highlightStruct fuel ast s O sink = some r)
    ∧ (∀ t ∈ findTypeDecls ast, ∀ O sink, ∃ r, highlightUsingDecls fuel ast t O sink = some r)
    ∧ (∀ sink, ∃ r, pass fuel ast sink = some r) := by
  have hS : ∀ s ∈ findStructs ast, ∀ O sink,
      ∃ r, highlightStruct fuel ast s O sink = some r := by
    intro s hs
    have hmem : ASTNode.Struct s ∈ ast := (mem_findStructs ast s).mp hs
    exact (highlight_terminates_on_path ast hacyclic fuel [.Struct s] (.Struct s)
      (List.nodup_singleton _)
      (fun y hy => by rw [List.mem_singleton.mp hy]; exact ⟨hmem, rfl⟩)
      (fun y hy => by rw [List.mem_singleton.mp hy])
      (List.mem_singleton_self _) (by simp only [List.length_singleton]; omega)).1 s rfl
  have hU : ∀ t ∈ findTypeDecls ast, ∀ O sink,
      ∃ r, highlightUsingDecls fuel ast t O sink = some r := by
    intro t ht
    have hmem : ASTNode.TypeDecl t ∈ ast := (mem_findTypeDecls ast t).mp ht
    exact (highlight_terminates_on_path ast hacyclic fuel [.TypeDecl t] (.TypeDecl t)
      (List.nodup_singleton _)
      (fun y hy => by rw [List.mem_singleton.mp hy]; exact ⟨hmem, rfl⟩)
      (fun y hy => by rw [List.mem_singleton.mp hy])
      (List.mem_singleton_self _) (by simp only [List.length_singleton]; omega)).2 t rfl
  refine ⟨hS, hU, fun sink => ?_⟩
  rw [pass_eq]
  exact resolveLoop_terminates fuel ast hS hU _ _

/-- Witness for C18: the forest `aliasOfStruct` (three Structs and one TypeDecl, references
`ViaAlias → Alias → Inner` and `Direct → Inner`) is acyclic, so depth `4` is enough. -/
theorem terminates_when_acyclic_witness :
    typeNodeCount aliasOfStruct = 4
    ∧ (∃ r, highlightStruct 4 aliasOfStruct viaAliasStruct 0x10 [] = some r)
    ∧ (∃ r, pass 4 aliasOfStruct [] = some r) :=
  have h := terminates_when_acyclic aliasOfStruct
    (acyclic_of_rank aliasOfStruct aliasOfStructRank (by decide)) 4 (by decide)
  ⟨by decide, h.1 viaAliasStruct (by decide) 0x10 [], h.2.2 []⟩

end hex
